import Mathlib

/-!
Verification of the better-dtek core against its specification.

This file gives a shallow embedding, in Lean 4, of the core components of
the better-dtek repository (schedule compressor, retry combinator,
restricted AST-literal evaluator, HTML template parser, cookie jar,
session/cache facade) and proves or refutes the frozen claims about them.

Conventions used throughout:
- TypeScript `Result<T, E>` is the two-constructor inductive `Result`.
- JavaScript numbers appearing in the schedule compressor are modelled as
  rationals (all values are multiples of 1/2, so this is exact).
- Mutable arrays built by `push` / "update last element" are modelled as
  Lean lists kept in *reverse* order (head = most recently pushed entry)
  and reversed once at the end.
- External JS string builtins (`includes`, `split`, `indexOf`, `trim`,
  `startsWith`) are modelled by executable functions over `String.data`
  (the character list), because the corresponding Lean builtins do not
  reduce inside the kernel.
- Error objects drop the `timestamp` and `cause` fields (side metadata
  produced by `Date.now()`; no claim mentions them).
-/

set_option maxHeartbeats 1000000

namespace BetterDtek

/-! ## Result type (src/lib/types/result.ts) -/

/-- TS `Result<T, E>`: success with value or failure with error. -/
inductive Result (α ε : Type) where
  | ok (value : α)
  | err (error : ε)
deriving DecidableEq, Repr

/-- TS `result.ok` discriminant. -/
def Result.isOk {α ε : Type} : Result α ε → Bool
  | .ok _ => true
  | .err _ => false

/-! ## Schedule compressor (src/lib/server/dtek/parser.ts, lines 283-357) -/

/-- The seven raw status codes of `ScheduleStatus`
(`'yes' | 'maybe' | 'no' | 'mfirst' | 'msecond' | 'first' | 'second'`). -/
inductive ScheduleStatus where
  | yes
  | maybe
  | no
  | mfirst
  | msecond
  | first
  | second
deriving DecidableEq, Repr

/-- The three normalized statuses (`NormalizedStatus`). -/
inductive NormalizedStatus where
  | yes
  | maybe
  | no
deriving DecidableEq, Repr

/-- `normalizeStatus`: `yes → yes`; `maybe`/`mfirst`/`msecond → maybe`;
everything else (`no`/`first`/`second`) `→ no`. -/
def normalizeStatus : ScheduleStatus → NormalizedStatus
  | .yes => .yes
  | .maybe => .maybe
  | .mfirst => .maybe
  | .msecond => .maybe
  | _ => .no

/-- `ScheduleRange`: half-open interval `[rfrom, rto)` over fractional
hour-of-day, tagged with a normalized status.  Fields `from`/`to` of the
source are renamed `rfrom`/`rto` (`from` is a Lean keyword). -/
structure ScheduleRange where
  rfrom : ℚ
  rto : ℚ
  status : NormalizedStatus
deriving DecidableEq, Repr

/-- `addRange`: push a range, merging with the previously pushed range when
it is adjacent (`last.to === from`) and has the same status (in which case
the previous range's end is extended).  The ranges list is kept in reverse
push order (head = last pushed); `compressDaySchedule` reverses it at the
end. -/
def addRange (ranges : List ScheduleRange) (f t : ℚ) (status : NormalizedStatus) :
    List ScheduleRange :=
  match ranges with
  | last :: rest =>
    if last.rto = f ∧ last.status = status then
      { last with rto := t } :: rest
    else
      ⟨f, t, status⟩ :: last :: rest
  | [] => [⟨f, t, status⟩]

/-- One iteration of the `compressDaySchedule` loop body for a given
`hourKey`: missing keys are skipped, the four half-hour codes emit two
half-hour sub-ranges, and the remaining codes emit one full-hour range with
the normalized status. -/
def hourStep (dayData : Nat → Option ScheduleStatus) (ranges : List ScheduleRange)
    (hourKey : Nat) : List ScheduleRange :=
  match dayData hourKey with
  | none => ranges
  | some rawStatus =>
    let hourStart : ℚ := (hourKey : ℚ) - 1
    match rawStatus with
    | .mfirst =>
      addRange (addRange ranges hourStart (hourStart + 1/2) .maybe)
        (hourStart + 1/2) (hourStart + 1) .yes
    | .msecond =>
      addRange (addRange ranges hourStart (hourStart + 1/2) .yes)
        (hourStart + 1/2) (hourStart + 1) .maybe
    | .first =>
      addRange (addRange ranges hourStart (hourStart + 1/2) .no)
        (hourStart + 1/2) (hourStart + 1) .yes
    | .second =>
      addRange (addRange ranges hourStart (hourStart + 1/2) .yes)
        (hourStart + 1/2) (hourStart + 1) .no
    | s => addRange ranges hourStart (hourStart + 1) (normalizeStatus s)

/-- The hour keys `1..24` iterated by the `for` loop of
`compressDaySchedule`. -/
def hourKeys : List Nat := (List.range 24).map (· + 1)

/-- `compressDaySchedule`: compress a single-day hourly grid (partial map
from hour keys 1..24 to raw status codes) into an ordered, merged range
list.  Hour key `k` covers `[k-1, k)`. -/
def compressDaySchedule (dayData : Nat → Option ScheduleStatus) : List ScheduleRange :=
  (hourKeys.foldl (hourStep dayData) []).reverse

/-- A single-day grid whose only entry maps hour key `k` to code `c`. -/
def singleHourGrid (k : Nat) (c : ScheduleStatus) : Nat → Option ScheduleStatus :=
  fun h => if h = k then some c else none

/-- Ordering relation between consecutive emitted ranges: the earlier range
ends no later than the later one starts, and two ranges sharing a boundary
never have equal status (otherwise `addRange` would have merged them). -/
def rangesOrdered (r1 r2 : ScheduleRange) : Prop :=
  r1.rto ≤ r2.rfrom ∧ (r1.rto = r2.rfrom → r1.status ≠ r2.status)

/-- All ranges of a (reversed) accumulator end at or before `q`. -/
def accBelow (acc : List ScheduleRange) (q : ℚ) : Prop :=
  ∀ r ∈ acc, r.rto ≤ q

/-- Well-formedness of the reversed accumulator maintained by the
compressor loop: every range is nonempty and consecutive ranges (in
chronological order, i.e. reversed list order) satisfy `rangesOrdered`. -/
def accWF (acc : List ScheduleRange) : Prop :=
  (∀ r ∈ acc, r.rfrom < r.rto) ∧ List.Chain' (flip rangesOrdered) acc

/-! ## Retry combinator (src/lib/utils/retry.ts, lines 88-127) -/

/-- Outcome of one invocation of the wrapped async operation: it can
return a plain (non-`Result`) value, return an explicit `ok`/`err`
`Result`, or throw.  The operation is modelled as the sequence of
outcomes of its successive invocations (`fn i` = outcome of the `i`-th
invocation, 1-based).  Thrown values and `Result` errors share the error
type `ε`, matching the single `unknown`-typed `lastError` slot of the
source. -/
inductive CallOutcome (α ε : Type) where
  | retPlain (value : α)
  | retOk (value : α)
  | retErr (error : ε)
  | thrown (error : ε)
deriving DecidableEq, Repr

/-- `RetryError` (code `RETRY_EXHAUSTED`); the derived `message` string and
the `Date.now()` `timestamp` are omitted.  `lastError` is `none` exactly
when the TS `lastError` variable still holds its initial `null`. -/
structure RetryError (ε : Type) where
  attempts : Nat
  lastError : Option ε
deriving DecidableEq, Repr

/-- The failure value of one invocation: `some e` when it threw `e` or
returned `err e`, `none` when it succeeded. -/
def outcomeFailure {α ε : Type} : CallOutcome α ε → Option ε
  | .retErr e => some e
  | .thrown e => some e
  | _ => none

/-- The success value of one invocation (plain return or `ok` `Result`). -/
def outcomeSuccess {α ε : Type} : CallOutcome α ε → Option α
  | .retPlain v => some v
  | .retOk v => some v
  | _ => none

/-- The attempt numbers `1 .. m` iterated by the retry `for` loop. -/
def attemptList (m : Nat) : List Nat := (List.range m).map (· + 1)

/-- The loop of `withRetry` over the remaining attempt numbers: return on
the first success (plain values are wrapped as success), remember the last
failure (thrown or explicit `err`, treated identically), and fall out of
the loop into the `RetryError` result.  The second component counts how
many times the operation was invoked. -/
def retryLoop {α ε : Type} (fn : Nat → CallOutcome α ε) (maxAttempts : Nat)
    (lastError : Option ε) : List Nat → Result α (RetryError ε) × Nat
  | [] => (.err ⟨maxAttempts, lastError⟩, 0)
  | attempt :: rest =>
    match fn attempt with
    | .retPlain v => (.ok v, 1)
    | .retOk v => (.ok v, 1)
    | .retErr e =>
      let r := retryLoop fn maxAttempts (some e) rest
      (r.1, r.2 + 1)
    | .thrown e =>
      let r := retryLoop fn maxAttempts (some e) rest
      (r.1, r.2 + 1)

/-- `withRetry fn delays` without an observer: the returned `Result` and
the number of invocations of `fn`, with `maxAttempts = delays.length + 1`.
The delay values themselves only feed `sleep`, which is pure waiting. -/
def withRetry {α ε : Type} (fn : Nat → CallOutcome α ε) (delays : List Nat) :
    Result α (RetryError ε) × Nat :=
  retryLoop fn (delays.length + 1) none (attemptList (delays.length + 1))

/-- The retry loop instrumented with the `onRetry` observer: after a
failed attempt that is not the last one (`attempt < maxAttempts`, the
guard of the sleep block) the observer is applied to the attempt number,
the stored last error and the upcoming delay `delays[attempt - 1]`; the
list of its results, in call order, is returned alongside the result and
the invocation count. -/
def retryLoopObs {α ε ω : Type} (fn : Nat → CallOutcome α ε)
    (onRetry : Nat → Option ε → Nat → ω) (delays : List Nat) (maxAttempts : Nat)
    (lastError : Option ε) : List Nat → Result α (RetryError ε) × Nat × List ω
  | [] => (.err ⟨maxAttempts, lastError⟩, 0, [])
  | attempt :: rest =>
    match fn attempt with
    | .retPlain v => (.ok v, 1, [])
    | .retOk v => (.ok v, 1, [])
    | .retErr e =>
      let r := retryLoopObs fn onRetry delays maxAttempts (some e) rest
      if attempt < maxAttempts then
        (r.1, r.2.1 + 1, onRetry attempt (some e) (delays.getD (attempt - 1) 0) :: r.2.2)
      else
        (r.1, r.2.1 + 1, r.2.2)
    | .thrown e =>
      let r := retryLoopObs fn onRetry delays maxAttempts (some e) rest
      if attempt < maxAttempts then
        (r.1, r.2.1 + 1, onRetry attempt (some e) (delays.getD (attempt - 1) 0) :: r.2.2)
      else
        (r.1, r.2.1 + 1, r.2.2)

/-- `withRetry fn delays` with the optional `onRetry` observer. -/
def withRetryObs {α ε ω : Type} (fn : Nat → CallOutcome α ε) (delays : List Nat)
    (onRetry : Nat → Option ε → Nat → ω) : Result α (RetryError ε) × Nat × List ω :=
  retryLoopObs fn onRetry delays (delays.length + 1) none (attemptList (delays.length + 1))

/-- An operation that throws on every invocation (used as a witness). -/
def alwaysThrow : Nat → CallOutcome Nat String :=
  fun _ => .thrown "boom"

/-- An operation that fails on the first invocation and returns an `ok`
`Result` on the second (used as a witness). -/
def secondTrySucceeds : Nat → CallOutcome Nat String :=
  fun i => if i = 2 then .retOk 5 else .retErr "first failure"

/-! ## AST model and restricted literal evaluator (parser.ts, lines 119-205) -/

/-- Values of acorn `Literal` nodes
(`string | number | boolean | null`). -/
inductive LitValue where
  | str (s : String)
  | num (q : ℚ)
  | boolV (b : Bool)
  | nullV
deriving DecidableEq, Repr

/-- Key of an acorn `Property` node: an `Identifier`, a `Literal`, or any
other node kind. -/
inductive PropKey where
  | ident (name : String)
  | lit (v : LitValue)
  | otherKey (kind : String)
deriving DecidableEq, Repr

mutual

/-- Acorn AST expression nodes, restricted to the shapes the parser
inspects.  `Identifier`, `MemberExpression` and `AssignmentExpression`
get their own constructors because `isMember` / `findAssignmentsInScript`
inspect them; every remaining node type is `other` carrying its `type`
string (e.g. `"CallExpression"`). -/
inductive AstNode where
  | literal (value : LitValue)
  | arrayExpr (elements : List AstNode)
  | objectExpr (properties : List AstProp)
  | unaryExpr (operator : String) (argument : AstNode)
  | ident (name : String)
  | memberExpr (obj : AstNode) (property : AstNode) (computed : Bool)
  | assignExpr (left : AstNode) (right : AstNode)
  | other (kind : String)

/-- Entries of an `ObjectExpression`: `Property` nodes (with their
`computed` flag, key and value) or anything else (e.g. `SpreadElement`),
which the evaluator and key extraction skip. -/
inductive AstProp where
  | property (computed : Bool) (key : PropKey) (value : AstNode)
  | otherProp (kind : String)

end

/-- The acorn `type` string of a node (`node?.type` in error messages). -/
def nodeKind : AstNode → String
  | .literal _ => "Literal"
  | .arrayExpr _ => "ArrayExpression"
  | .objectExpr _ => "ObjectExpression"
  | .unaryExpr _ _ => "UnaryExpression"
  | .ident _ => "Identifier"
  | .memberExpr _ _ _ => "MemberExpression"
  | .assignExpr _ _ => "AssignmentExpression"
  | .other kind => kind

/-- JS `String(v)` for a literal value.  Numeric formatting is simplified
to the integer rendering when the value is an integer (all keys in the
upstream data); non-integer numeric keys are rendered as rationals. -/
def jsLitToString : LitValue → String
  | .str s => s
  | .num q => if q.den = 1 then toString q.num else toString q
  | .boolV b => if b then "true" else "false"
  | .nullV => "null"

/-- `propKeyToString` (parser.ts, lines 148-154), given the `computed`
flag and key of a `Property` node: a non-computed `Identifier` key yields
its name; otherwise a `Literal` key yields `String(value)`; anything else
yields `null`. -/
def propKeyToString (computed : Bool) (key : PropKey) : Option String :=
  match key with
  | .ident name => if computed then none else some name
  | .lit v => some (jsLitToString v)
  | .otherKey _ => none

/-- `MAX_AST_DEPTH` (parser.ts, line 159). -/
def MAX_AST_DEPTH : Nat := 50

/-- The errors thrown by `evalAst`: the depth-bound error, the unsupported
unary error (also raised for `-` applied to a non-literal), and the
unsupported-node-type error. -/
inductive EvalErr where
  | maxDepth
  | unsupportedUnary (operator : String)
  | unsupportedNode (kind : String)
deriving DecidableEq, Repr

/-- Evaluation results: JS plain data.  `nan` is the JS `NaN` that can be
produced by coercing a non-numeric string under unary minus. -/
inductive AstValue where
  | str (s : String)
  | num (q : ℚ)
  | nan
  | boolV (b : Bool)
  | nullV
  | arr (elements : List AstValue)
  | obj (fields : List (String × AstValue))

/-- A `Literal` node's value as an `AstValue`. -/
def litToValue : LitValue → AstValue
  | .str s => .str s
  | .num q => .num q
  | .boolV b => .boolV b
  | .nullV => .nullV

/-- Trim leading and trailing whitespace from a character list (JS
`String.prototype.trim`, executable model). -/
def trimChars (cs : List Char) : List Char :=
  ((cs.dropWhile Char.isWhitespace).reverse.dropWhile Char.isWhitespace).reverse

/-- JS `trim()` over our character-list model of strings. -/
def strTrim (s : String) : String :=
  ⟨trimChars s.data⟩

/-- Parse a non-empty all-digit character list as a natural number. -/
def digitsToNat (cs : List Char) : Option Nat :=
  if cs.isEmpty then none
  else
    cs.foldl
      (fun acc c =>
        acc.bind (fun n => if c.isDigit then some (10 * n + (c.toNat - 48)) else none))
      (some 0)

/-- Parse an optionally signed integer character list as a rational. -/
def parseIntChars : List Char → Option ℚ
  | '-' :: rest => (digitsToNat rest).map (fun n => -(n : ℚ))
  | '+' :: rest => (digitsToNat rest).map (fun n => (n : ℚ))
  | cs => (digitsToNat cs).map (fun n => (n : ℚ))

/-- JS `Number(s)` for a string, simplified: empty or whitespace-only
yields 0, an optionally signed integer literal parses, everything else is
`NaN` (decimal points, exponents and radix prefixes are not modelled; no
claim depends on them). -/
def jsStringToNumber (s : String) : AstValue :=
  let t := trimChars s.data
  if t.isEmpty then .num 0
  else
    match parseIntChars t with
    | some q => .num q
    | none => .nan

/-- JS `Number(v)` for a literal value (the coercion applied by the unary
minus branch of `evalAst`). -/
def jsNumberCoerce : LitValue → AstValue
  | .num q => .num q
  | .boolV b => .num (if b then 1 else 0)
  | .nullV => .num 0
  | .str s => jsStringToNumber s

/-- JS unary minus on a coerced number (`-NaN = NaN`). -/
def negValue : AstValue → AstValue
  | .num q => .num (-q)
  | _ => .nan

/-- JS `out[k] = v` on a plain object: overwrite in place when the key
exists, append otherwise. -/
def recordSet {β : Type} (fields : List (String × β)) (key : String) (value : β) :
    List (String × β) :=
  if fields.any (fun kv => kv.1 = key) then
    fields.map (fun kv => if kv.1 = key then (key, value) else kv)
  else fields ++ [(key, value)]

/-- Fuel-indexed form of `evalAst` (parser.ts, lines 174-205): only
`Literal`, `ArrayExpression`, `ObjectExpression` and `UnaryExpression`
(`-` on a `Literal` argument, coerced through `Number`) are evaluated;
every other node type throws `unsupportedNode` immediately, and a depth
greater than `MAX_AST_DEPTH` throws `maxDepth` before looking at the node.
Object properties that are not `Property` nodes or whose key stringifies
to `null` are skipped; duplicate keys overwrite.  The fuel only makes the
recursion structural: `evalAst` below instantiates it so that the depth
check always fires first (fuel 0 forces `depth > MAX_AST_DEPTH`, where the
source then also throws `maxDepth`). -/
def evalAstF : Nat → AstNode → Nat → Except EvalErr AstValue
  | 0, _, _ => .error .maxDepth
  | fuel + 1, node, depth =>
    if MAX_AST_DEPTH < depth then .error .maxDepth
    else
      match node with
      | .literal v => .ok (litToValue v)
      | .arrayExpr els => do
        let vs ← els.mapM (fun el => evalAstF fuel el (depth + 1))
        pure (.arr vs)
      | .objectExpr props => do
        let fields ← props.foldlM
          (fun out p =>
            match p with
            | .otherProp _ => pure out
            | .property computed key value =>
              match propKeyToString computed key with
              | none => pure out
              | some k => do
                let v ← evalAstF fuel value (depth + 1)
                pure (recordSet out k v))
          []
        pure (.obj fields)
      | .unaryExpr op arg =>
        if op = "-" then
          match arg with
          | .literal v => .ok (negValue (jsNumberCoerce v))
          | _ => .error (.unsupportedUnary op)
        else .error (.unsupportedUnary op)
      | n => .error (.unsupportedNode (nodeKind n))

/-- `evalAst node depth`: the restricted literal evaluator. -/
def evalAst (node : AstNode) (depth : Nat) : Except EvalErr AstValue :=
  evalAstF (MAX_AST_DEPTH + 2 - depth) node depth

/-- The node shapes accepted (not immediately rejected) by `evalAst` as
implemented: literals, array literals, object literals, and unary minus
applied to any literal. -/
def codeAccepted : AstNode → Prop
  | .literal _ => True
  | .arrayExpr _ => True
  | .objectExpr _ => True
  | .unaryExpr op arg => op = "-" ∧ ∃ v, arg = .literal v
  | _ => False

/-- The accept set exactly as worded by the specification: literal values,
array literals, object literals, and unary negation of a *numeric*
literal. -/
def specAccepted : AstNode → Prop
  | .literal _ => True
  | .arrayExpr _ => True
  | .objectExpr _ => True
  | .unaryExpr op arg => op = "-" ∧ ∃ q, arg = .literal (.num q)
  | _ => False

/-! ## JS string builtins (executable character-list models) -/

/-- JS `String.prototype.includes` over character lists. -/
def charsContain : List Char → List Char → Bool
  | [], needle => needle.isEmpty
  | c :: rest, needle => needle.isPrefixOf (c :: rest) || charsContain rest needle

/-- JS `haystack.includes(pattern)`. -/
def strContains (s pat : String) : Bool :=
  charsContain s.data pat.data

/-- JS `s.startsWith(p)`. -/
def strStartsWith (s p : String) : Bool :=
  p.data.isPrefixOf s.data

/-! ## DtekError union (src/lib/types/errors.ts) -/

/-- The `DtekError` tagged union, restricted to the structured fields the
claims mention (`message`, `timestamp` and `cause` are omitted).
`parseKind` is the `parseType` discriminant
(`csrf`/`discon_streets`/`discon_fact`/`template`/`json`). -/
inductive DtekErr where
  | networkErr (url : String) (httpStatus : Option Nat)
  | parseErr (parseKind : String) (expected : String) (found : Option String)
  | sessionErr (reason : String)
  | validationErr (field : String) (constraint : String)
  | regionUnavailableErr (region : Option String)
deriving DecidableEq, Repr

/-- The auth-error test of `DtekService.getStatus` (part_012, lines
230-232): a `NETWORK_ERROR` whose `httpStatus` is 401 or 403. -/
def DtekErr.isAuthError : DtekErr → Bool
  | .networkErr _ (some 401) => true
  | .networkErr _ (some 403) => true
  | _ => false

/-! ## Document extractor / parser (src/lib/server/dtek/parser.ts) -/

/-- `isBotProtectionPage` (lines 74-77): Incapsula markers. -/
def isBotProtectionPage (html : String) : Bool :=
  strContains html "_Incapsula_Resource" || strContains html "SWJIYLWA"

/-- Top-level statements of a parsed script: `ExpressionStatement`s
carrying their expression, and every other statement kind. -/
inductive Stmt where
  | exprStmt (expression : AstNode)
  | otherStmt (kind : String)

/-- A `<script>` block of the upstream document: its raw text (for the
`includes` pre-filters) and its acorn parse result (`none` when
`acorn.parse` throws). -/
structure ScriptBlock where
  raw : String
  parsed : Option (List Stmt)

/-- The parser-relevant content of an upstream HTML document: the raw text
(for substring checks), the result of the cheerio query for the `content`
attribute of `meta[name="csrf-token"]` (`none` when the tag is absent),
and the inline script blocks in document order.  Cheerio and acorn are
external libraries; their outputs are fields of this model. -/
structure HtmlDoc where
  text : String
  csrfMeta : Option String
  scripts : List ScriptBlock

/-- The `expected` string of the missing-CSRF parse error. -/
def expectedCsrfMeta : String := "<meta name=\"csrf-token\" content=\"...\">"

/-- `html.length > 500 ? html.slice(0, 500) + '...' : html` (the `found`
context of the missing-CSRF parse error). -/
def truncatedText (s : String) : String :=
  if s.length > 500 then s.take 500 ++ "..." else s

/-- The error produced when the CSRF meta tag is missing or empty (JS
falsy): `RegionUnavailable` when bot-protection markers are present
(checked first), otherwise a `csrf` `ParseError` carrying the truncated
document text. -/
def csrfMissingError (doc : HtmlDoc) : DtekErr :=
  if isBotProtectionPage doc.text then
    .regionUnavailableErr none
  else
    .parseErr "csrf" expectedCsrfMeta (some (truncatedText doc.text))

/-- `extractCsrfMeta` (lines 84-117): return the token, or the
missing-CSRF error when the attribute is absent or empty (`!csrf`). -/
def extractCsrfMeta (doc : HtmlDoc) : Result String DtekErr :=
  match doc.csrfMeta with
  | none => .err (csrfMissingError doc)
  | some csrf => if csrf = "" then .err (csrfMissingError doc) else .ok csrf

/-- `isMember` (lines 125-141): `node` is a `MemberExpression` whose
object is the identifier `objName` and whose property matches `propName`
(identifier name when non-computed, `String(literal)` when computed). -/
def isMember (node : AstNode) (objName propName : String) : Bool :=
  match node with
  | .memberExpr obj property computed =>
    let objOk := match obj with
      | .ident name => name == objName
      | _ => false
    if objOk then
      if !computed then
        match property with
        | .ident name => name == propName
        | _ => false
      else
        match property with
        | .literal v => jsLitToString v == propName
        | _ => false
    else false
  | _ => false

/-- The three captured assignment right-hand sides of
`findAssignmentsInScript`. -/
structure FoundAssignments where
  streetsObj : Option (List AstProp)
  factObj : Option (List AstProp)
  presetObj : Option (List AstProp)

/-- One capture step:
`!<slot> && isMember(left, 'DisconSchedule', prop) && right.type === 'ObjectExpression'`. -/
def captureAssign (cur : Option (List AstProp)) (left : AstNode) (propName : String)
    (right : AstNode) : Option (List AstProp) :=
  if cur.isNone && isMember left "DisconSchedule" propName then
    match right with
    | .objectExpr props => some props
    | _ => cur
  else cur

/-- The statement loop of `findAssignmentsInScript` (lines 228-260):
skip non-`ExpressionStatement`s and non-assignments, capture the first
`DisconSchedule.streets`/`fact`/`preset` object assignments, and break
once all three are found. -/
def findAssignLoop : List Stmt → FoundAssignments → FoundAssignments
  | [], acc => acc
  | stmt :: rest, acc =>
    match stmt with
    | .otherStmt _ => findAssignLoop rest acc
    | .exprStmt expr =>
      match expr with
      | .assignExpr left right =>
        let acc1 : FoundAssignments :=
          { streetsObj := captureAssign acc.streetsObj left "streets" right
            factObj := captureAssign acc.factObj left "fact" right
            presetObj := captureAssign acc.presetObj left "preset" right }
        if acc1.streetsObj.isSome && acc1.factObj.isSome && acc1.presetObj.isSome then
          acc1
        else findAssignLoop rest acc1
      | _ => findAssignLoop rest acc

/-- `findAssignmentsInScript` (lines 212-263); an acorn parse failure
yields all-`null`. -/
def findAssignmentsInScript (parsed : Option (List Stmt)) : FoundAssignments :=
  match parsed with
  | none => ⟨none, none, none⟩
  | some body => findAssignLoop body ⟨none, none, none⟩

/-- The property loop of `extractUpdateFromFactObject` (lines 270-281):
on the first `Property` whose key stringifies to `"update"`, evaluate its
value (a thrown evaluation error propagates) and return it when it is a
string, `null` otherwise; keys that are not `Property` nodes or stringify
to `null` are skipped. -/
def findUpdateProp : List AstProp → Except EvalErr (Option String)
  | [] => .ok none
  | p :: rest =>
    match p with
    | .otherProp _ => findUpdateProp rest
    | .property computed key value =>
      match propKeyToString computed key with
      | some k =>
        if k = "update" then
          match evalAst value 0 with
          | .error e => .error e
          | .ok v =>
            match v with
            | .str s => .ok (some s)
            | _ => .ok none
        else findUpdateProp rest
      | none => findUpdateProp rest

/-- `extractUpdateFromFactObject`: `null` input yields `null`. -/
def extractUpdateFromFactObject (factObj : Option (List AstProp)) :
    Except EvalErr (Option String) :=
  match factObj with
  | none => .ok none
  | some props => findUpdateProp props

/-- The script scan of `extractDisconScheduleData` (lines 427-437):
pre-filter by raw-text `includes`, `||=`-accumulate the found `streets`
and `fact` objects, and break when both are found. -/
def scanScripts : List ScriptBlock → Option (List AstProp) → Option (List AstProp) →
    Option (List AstProp) × Option (List AstProp)
  | [], sObj, fObj => (sObj, fObj)
  | blk :: rest, sObj, fObj =>
    if !(strContains blk.raw "DisconSchedule") then scanScripts rest sObj fObj
    else if !(strContains blk.raw "DisconSchedule.streets") &&
        !(strContains blk.raw "DisconSchedule.fact") then
      scanScripts rest sObj fObj
    else
      let found := findAssignmentsInScript blk.parsed
      let sObj1 := sObj <|> found.streetsObj
      let fObj1 := fObj <|> found.factObj
      if sObj1.isSome && fObj1.isSome then (sObj1, fObj1)
      else scanScripts rest sObj1 fObj1

/-- The success payload of `extractDisconScheduleData`: the evaluated
`DisconSchedule.streets` object (the TS code casts it unchecked, so it is
kept as a raw `AstValue`) and the `update` timestamp string. -/
structure DisconData where
  streetsByCity : AstValue
  updateFact : String

/-- `extractDisconScheduleData` (lines 413-480): find the two assignments,
extract the `update` string from the `fact` object, then evaluate the
`streets` object; thrown evaluation errors are converted to a `template`
`ParseError` by the surrounding `try`/`catch`. -/
def extractDisconScheduleData (doc : HtmlDoc) : Result DisconData DtekErr :=
  let scan := scanScripts doc.scripts none none
  match scan.1 with
  | none =>
    .err (.parseErr "discon_streets" "DisconSchedule.streets = {...}"
      (some "No matching script block found"))
  | some sProps =>
    match scan.2 with
    | none =>
      .err (.parseErr "discon_fact" "DisconSchedule.fact = {...}"
        (some "No matching script block found"))
    | some fProps =>
      match extractUpdateFromFactObject (some fProps) with
      | .error _ =>
        .err (.parseErr "template" "Script containing DisconSchedule assignments" none)
      | .ok none =>
        .err (.parseErr "discon_fact" "DisconSchedule.fact = \x7b update: \"...\" \x7d" none)
      | .ok (some updateFact) =>
        match evalAst (.objectExpr sProps) 0 with
        | .error _ =>
          .err (.parseErr "template" "Script containing DisconSchedule assignments" none)
        | .ok v => .ok ⟨v, updateFact⟩

/-- JS property read `v[key]` on evaluated data (object field, array
index through a decimal key). -/
def jsGetProp (v : AstValue) (key : String) : Option AstValue :=
  match v with
  | .obj fields => fields.lookup key
  | .arr els =>
    match digitsToNat key.data with
    | some i => els.get? i
    | none => none
  | _ => none

/-- JS `Object.entries` on evaluated data (objects and arrays; primitives
give `[]`; `null` would throw in JS but is unreachable behind the
`typeof === 'object'` + truthiness guard of `extractPresetData`). -/
def jsEntries (v : AstValue) : List (String × AstValue) :=
  match v with
  | .obj fields => fields
  | .arr els => ((List.range els.length).zip els).map (fun p => (toString p.1, p.2))
  | _ => []

/-- JS truthiness of evaluated data. -/
def astTruthy : AstValue → Bool
  | .str s => !(s == "")
  | .num q => !(q == 0)
  | .nan => false
  | .boolV b => b
  | .nullV => false
  | .arr _ => true
  | .obj _ => true

/-- The raw-status decoding performed implicitly by the duck-typed
`compressDaySchedule` branch chain: the six recognized status strings map
to their codes, and any other (truthy) value falls through
`normalizeStatus`'s default and is treated as `no`. -/
def statusOfValue : AstValue → ScheduleStatus
  | .str "yes" => .yes
  | .str "maybe" => .maybe
  | .str "mfirst" => .mfirst
  | .str "msecond" => .msecond
  | .str "first" => .first
  | .str "second" => .second
  | _ => .no

/-- A day object of the raw preset as an hourly grid: missing or falsy
cells are skipped (`if (!rawStatus) continue`), other cells decode as
above. -/
def dayGridOfValue (dayData : AstValue) : Nat → Option ScheduleStatus :=
  fun hourKey =>
    match jsGetProp dayData (toString hourKey) with
    | none => none
    | some v => if astTruthy v then some (statusOfValue v) else none

/-- `processPresetSchedules` (lines 364-375): compress every day of every
group of `rawPreset.data`. -/
def processPresetSchedules (rawPreset : AstValue) :
    List (String × List (String × List ScheduleRange)) :=
  (jsEntries ((jsGetProp rawPreset "data").getD .nullV)).map
    (fun gw => (gw.1,
      (jsEntries gw.2).map (fun dd => (dd.1, compressDaySchedule (dayGridOfValue dd.2)))))

/-- The guard `raw.data && typeof raw.data === 'object'` of
`extractPresetData`: a truthy object-typed `data` property (objects and
arrays; `null` is falsy). -/
def presetDataGuard (raw : AstValue) : Bool :=
  match jsGetProp raw "data" with
  | some (.obj _) => true
  | some (.arr _) => true
  | _ => false

/-- The script loop of `extractPresetData` (lines 389-398): scan scripts
mentioning `DisconSchedule.preset`; a thrown evaluation error is caught by
the surrounding `try`/`catch`, making the whole extraction yield `null`;
a guard failure continues with the next script. -/
def extractPresetLoop : List ScriptBlock → Option AstValue
  | [] => none
  | blk :: rest =>
    if !(strContains blk.raw "DisconSchedule.preset") then extractPresetLoop rest
    else
      match (findAssignmentsInScript blk.parsed).presetObj with
      | none => extractPresetLoop rest
      | some props =>
        match evalAst (.objectExpr props) 0 with
        | .error _ => none
        | .ok raw => if presetDataGuard raw then some raw else extractPresetLoop rest

/-- `extractPresetData` (lines 382-406), non-fatal. -/
def extractPresetData (doc : HtmlDoc) : Option AstValue :=
  extractPresetLoop doc.scripts

/-- `DtekTemplateData`: the assembled snapshot.  `streetsByCity` stays the
raw evaluated value (unchecked TS cast); `schedules` is the processed
table when the preset was found. -/
structure DtekTemplateData where
  csrf : String
  updateFact : String
  cities : List String
  streetsByCity : AstValue
  schedules : Option (List (String × List (String × List ScheduleRange)))

/-- `Object.keys` on evaluated data (only ever applied to the streets
object). -/
def jsObjectKeys : AstValue → List String
  | .obj fields => fields.map (fun kv => kv.1)
  | _ => []

/-- An evaluated value is an array of strings. -/
def isStringArray : AstValue → Bool
  | .arr els =>
    els.all (fun v => match v with
      | .str _ => true
      | _ => false)
  | _ => false

/-- An evaluated value is a record from strings to string arrays. -/
def validStreetsRecord : AstValue → Bool
  | .obj fields => fields.all (fun kv => isStringArray kv.2)
  | _ => false

/-- The zod `dtekTemplateDataSchema` check specialized to this model:
`csrf` nonempty and `streetsByCity` a record of string arrays; the other
fields (`updateFact : String`, `cities : List String`, typed compressed
`schedules`) satisfy their schema by construction. -/
def validTemplateData (td : DtekTemplateData) : Bool :=
  !(td.csrf == "") && validStreetsRecord td.streetsByCity

/-- `parseTemplate` (lines 487-528): CSRF extraction short-circuits,
then the DisconSchedule extraction, then city keys are sorted
(`Object.keys(...).sort()`, default JS string order), the preset is
extracted non-fatally, and the assembled data is validated. -/
def parseTemplate (doc : HtmlDoc) : Result DtekTemplateData DtekErr :=
  match extractCsrfMeta doc with
  | .err e => .err e
  | .ok csrf =>
    match extractDisconScheduleData doc with
    | .err e => .err e
    | .ok dd =>
      let cities := (jsObjectKeys dd.streetsByCity).mergeSort (fun a b => decide (a ≤ b))
      let rawPreset := extractPresetData doc
      let templateData : DtekTemplateData :=
        { csrf := csrf, updateFact := dd.updateFact, cities := cities,
          streetsByCity := dd.streetsByCity,
          schedules := rawPreset.map processPresetSchedules }
      if validTemplateData templateData then .ok templateData
      else .err (.parseErr "template" "Valid DtekTemplateData structure" none)

/-- A document that is only a bot interstitial: marker text, no CSRF meta
tag, no scripts (used as a witness). -/
def botDoc : HtmlDoc := ⟨"SWJIYLWA", none, []⟩

/-- A document with neither CSRF meta tag nor bot markers (witness). -/
def plainDoc : HtmlDoc := ⟨"hello", none, []⟩

/-! ## Cookie jar (src/lib/server/dtek/client.ts, lines 34-95) -/

/-- The region codes (src/lib/constants/regions.ts). -/
inductive RegionCode where
  | kem
  | krem
  | oem
  | dnem
  | dem
deriving DecidableEq, Repr

/-- The region code string. -/
def regionStr : RegionCode → String
  | .kem => "kem"
  | .krem => "krem"
  | .oem => "oem"
  | .dnem => "dnem"
  | .dem => "dem"

/-- Parse one `Set-Cookie` header value as `absorb` does: take the part
before the first `;` (`header.split(';', 1)[0]`), find the first `=`
(`indexOf`), skip the header when there is none or it is at position 0
(`eqIndex <= 0`), and trim name and value. -/
def parseCookiePair (header : String) : Option (String × String) :=
  let pair := header.data.takeWhile (fun c => c != ';')
  let name := pair.takeWhile (fun c => c != '=')
  if name.length = pair.length then none
  else if name.isEmpty then none
  else some (strTrim ⟨name⟩, strTrim ⟨pair.drop (name.length + 1)⟩)

/-- Absorb one header into the jar (`Map.set`: same-name overwrite keeps
the original position, new names append). -/
def absorbOne (jar : List (String × String)) (header : String) : List (String × String) :=
  match parseCookiePair header with
  | none => jar
  | some nv => recordSet jar nv.1 nv.2

/-- `CookieJar.absorb` over a list of `Set-Cookie` header values. -/
def absorb (jar : List (String × String)) (headers : List String) :
    List (String × String) :=
  headers.foldl absorbOne jar

/-- The allow-list of name prefixes of `getFiltered`'s regex
`^(dtek-{r}|_csrf-dtek-{r}|_language|visid_incap_|incap_ses_|incap_wrt_)`
(anchored at the start only, so each alternative is a prefix test). -/
def cookieAllowPrefixes (region : RegionCode) : List String :=
  ["dtek-" ++ regionStr region, "_csrf-dtek-" ++ regionStr region, "_language",
    "visid_incap_", "incap_ses_", "incap_wrt_"]

/-- A cookie name matches the region's allow-list. -/
def cookieAllowed (region : RegionCode) (name : String) : Bool :=
  (cookieAllowPrefixes region).any (fun p => strStartsWith name p)

/-- The cookies kept by `CookieJar.getFiltered`. -/
def getFilteredList (jar : List (String × String)) (region : RegionCode) :
    List (String × String) :=
  jar.filter (fun kv => cookieAllowed region kv.1)

/-- `CookieJar.getFiltered`: the filtered `name=value; ...` rendering. -/
def getFiltered (jar : List (String × String)) (region : RegionCode) : String :=
  String.intercalate "; " ((getFilteredList jar region).map (fun kv => kv.1 ++ "=" ++ kv.2))

/-! ## Session/cache facade, sequential model (src/unnamed/part_012) -/

/-- The zod-validated template data as held by a session (after
`dtekTemplateDataSchema.safeParse` succeeded, `streetsByCity` is a record
from city names to street lists). -/
structure FacadeTemplateData where
  csrf : String
  updateFact : String
  cities : List String
  streetsByCity : List (String × List String)
  schedules : Option (List (String × List (String × List ScheduleRange)))

/-- `SessionState` (part_012, lines 32-37). -/
structure SessionState where
  cookies : List (String × String)
  csrf : String
  updateFact : String
  templateData : FacadeTemplateData

/-- One building's status record (`DtekBuildingStatus`); the TS `type`
field is renamed `btype` (`type` is a Lean keyword), `voluntarily` is
omitted (typed `unknown`, never read). -/
structure BuildingStatus where
  sub_type : Option String
  start_date : Option String
  end_date : Option String
  btype : Option String
  sub_type_reason : Option (List String)
deriving DecidableEq, Repr

/-- `DtekStatusResponse`: result flag and building-id-keyed data map. -/
structure DtekStatusResponse where
  result : Bool
  data : List (String × BuildingStatus)
deriving DecidableEq, Repr

/-- `naturalSort` (src/lib/utils/natural-sort.ts): sort a copy of the
list with the Ukrainian `Intl.Collator`'s compare function.  The collator
is an external ICU component, modelled as the comparator argument
`cmp`. -/
def naturalSort (cmp : String → String → Bool) (items : List String) : List String :=
  items.mergeSort cmp

/-- `naturalSortKeys`: rebuild a record in naturally sorted key order
(equivalently, since keys are unique: stable-sort the entries by key). -/
def naturalSortKeys {β : Type} (cmp : String → String → Bool)
    (entries : List (String × β)) : List (String × β) :=
  entries.mergeSort (fun a b => cmp a.1 b.1)

/-- An entry of the `TtlCache` store. -/
structure CacheEntry (β : Type) where
  data : β
  expiresAt : Nat
deriving DecidableEq, Repr

/-- `TtlCache.get` (cache.ts, lines 25-39): missing key yields `null`;
an expired entry (`now ≥ expiresAt`) is deleted and yields `null`;
otherwise the cached value.  Returns the value and the updated store. -/
def cacheGet {β : Type} (cache : List (String × CacheEntry β)) (key : String)
    (now : Nat) : Option β × List (String × CacheEntry β) :=
  match cache.lookup key with
  | none => (none, cache)
  | some entry =>
    if now ≥ entry.expiresAt then (none, cache.filter (fun kv => !(kv.1 == key)))
    else (some entry.data, cache)

/-- `TtlCache.set` (cache.ts, lines 47-55) with the default TTL. -/
def cacheSet {β : Type} (cache : List (String × CacheEntry β)) (key : String)
    (value : β) (now ttl : Nat) : List (String × CacheEntry β) :=
  recordSet cache key ⟨value, now + ttl⟩

/-- `SESSION_TTL_MS` (part_012, line 47). -/
def SESSION_TTL_MS : Nat := 60 * 60 * 1000

/-- `STATUS_CACHE_TTL_MS` (part_012, line 49). -/
def STATUS_CACHE_TTL_MS : Nat := 10 * 60 * 1000

/-- The mutable state of one `DtekService` instance (part_012): session,
its absolute expiry instant (milliseconds), and the status cache. -/
structure Svc where
  session : Option SessionState
  sessionExpiresAt : Nat
  statusCache : List (String × CacheEntry DtekStatusResponse)

/-- `clearSession` (part_012, lines 62-65). -/
def clearSession (svc : Svc) : Svc :=
  { svc with session := none, sessionExpiresAt := 0 }

/-- The fast-path validity test of `ensureSession`:
`this.session && Date.now() < this.sessionExpiresAt`. -/
def sessionValid (svc : Svc) (now : Nat) : Bool :=
  svc.session.isSome && decide (now < svc.sessionExpiresAt)

/-- Sequential (single-caller) model of `ensureSession` +
`refreshSessionInternal` (part_012, lines 72-145): the fast path returns
at once; otherwise the awaited refresh (template fetch + parse, external
here) has outcome `refresh` — failure clears the session and propagates
the error, success installs the new session with expiry
`now + SESSION_TTL_MS`.  The single-flight promise is modelled separately
by `FacadeState`/`step`. -/
def ensureSessionSeq (svc : Svc) (now : Nat)
    (refresh : Result SessionState DtekErr) : Result Unit DtekErr × Svc :=
  if sessionValid svc now then (.ok (), svc)
  else
    match refresh with
    | .err e => (.err e, clearSession svc)
    | .ok s =>
      (.ok (), { svc with session := some s, sessionExpiresAt := now + SESSION_TTL_MS })

/-- Sequential model of `getStatus` (part_012, lines 194-259): consult
the cache; on a miss ensure the session (refresh outcome `refresh`), then
perform the authenticated fetch (outcome `fetchOutcome`); an auth-class
failure (401/403 network error) clears the session before returning the
error while any other failure leaves it in place; a success naturally
sorts the building keys, writes the cache entry and returns. -/
def getStatusSeq (svc : Svc) (now : Nat) (city street : String)
    (cmp : String → String → Bool) (refresh : Result SessionState DtekErr)
    (fetchOutcome : Result DtekStatusResponse DtekErr) :
    Result DtekStatusResponse DtekErr × Svc :=
  let cacheKey := city ++ ":" ++ street
  match cacheGet svc.statusCache cacheKey now with
  | (some cached, cache1) => (.ok cached, { svc with statusCache := cache1 })
  | (none, cache1) =>
    let svc1 := { svc with statusCache := cache1 }
    match ensureSessionSeq svc1 now refresh with
    | (.err e, svc2) => (.err e, svc2)
    | (.ok _, svc2) =>
      match svc2.session with
      | none => (.err (.sessionErr "missing"), svc2)
      | some _ =>
        match fetchOutcome with
        | .err e =>
          if e.isAuthError then (.err e, clearSession svc2)
          else (.err e, svc2)
        | .ok resp =>
          let sorted : DtekStatusResponse :=
            { resp with data := naturalSortKeys cmp resp.data }
          (.ok sorted,
            { svc2 with statusCache :=
                cacheSet svc2.statusCache cacheKey sorted now STATUS_CACHE_TTL_MS })

/-- Sequential model of `getStreets` (part_012, lines 169-181):
`this.session.templateData.streetsByCity[city] || []`, naturally
sorted. -/
def getStreetsSeq (svc : Svc) (now : Nat) (city : String)
    (cmp : String → String → Bool) (refresh : Result SessionState DtekErr) :
    Result (List String) DtekErr × Svc :=
  match ensureSessionSeq svc now refresh with
  | (.err e, svc1) => (.err e, svc1)
  | (.ok _, svc1) =>
    match svc1.session with
    | none => (.err (.sessionErr "missing"), svc1)
    | some sess =>
      let streets := (sess.templateData.streetsByCity.lookup city).getD []
      (.ok (naturalSort cmp streets), svc1)

/-- An empty validated snapshot (witness module). -/
def emptyTemplateData : FacadeTemplateData :=
  ⟨"tok", "upd", [], [], none⟩

/-- A concrete valid session (witness module). -/
def sessionW : SessionState :=
  ⟨[], "tok", "upd", emptyTemplateData⟩

/-- A concrete service state holding a valid session and an empty cache
(witness module). -/
def svcW : Svc :=
  ⟨some sessionW, 1000, []⟩

/-- A concrete auth-class failure (witness module). -/
def authErrW : DtekErr := .networkErr "https://www.dtek-kem.com.ua/ua/ajax" (some 401)

/-! ## Single-flight session refresh: event-loop model (part_012, `ensureSession`) -/

/-- Progress of one caller through `ensureSession` (every public
operation — `getCities`, `getStreets`, `getStatus` on a cache miss,
`getSchedules` — begins by awaiting `ensureSession`): `idle` = not yet
invoked; `awaitingRefresh pid isCreator` = suspended on promise `pid`
(`isCreator` marks the caller whose call created it and whose `finally`
clears the handle); `done viaPid outcome` = returned, `viaPid = none` for
the fast path, `some pid` when the result came from awaiting promise
`pid`. -/
inductive CallerPhase where
  | idle
  | awaitingRefresh (pid : Nat) (isCreator : Bool)
  | done (viaPid : Option Nat) (outcome : Bool)
deriving DecidableEq, Repr

/-- Event-loop state of one facade instance.  `sessionValid` abstracts
`this.session && Date.now() < this.sessionExpiresAt`; `refreshPromise` is
the stored `sessionRefreshPromise` handle (a promise id); `promises`
records every refresh promise ever created (`none` = still in flight,
`some o` = settled with success flag `o`); `fetchCount` counts the
`fetchTemplate` calls (one per `refreshSessionInternal` start); `callers`
gives each caller's phase. -/
structure FacadeState where
  sessionValid : Bool
  refreshPromise : Option Nat
  promises : List (Option Bool)
  fetchCount : Nat
  callers : Nat → CallerPhase

/-- Scheduler events.  `invoke i` runs caller `i`'s synchronous prefix of
`ensureSession` — the fast-path check, the in-flight-promise check, and
(when no promise is stored) the promise creation plus fetch start, all of
which execute with no intervening await.  `settle pid o` completes the
in-flight refresh `pid`: the code between `refreshSessionInternal`'s last
await and its return runs synchronously, installing the session on
success and clearing it on failure, and resolves the promise.  `resume i`
runs caller `i`'s continuation once its awaited promise has settled; for
the creator, the `finally` block clears the stored handle. -/
inductive FacadeEv where
  | invoke (i : Nat)
  | settle (pid : Nat) (outcome : Bool)
  | resume (i : Nat)

/-- One scheduler step; `none` when the event is not enabled in `s`. -/
def step (s : FacadeState) : FacadeEv → Option FacadeState
  | .invoke i =>
    match s.callers i with
    | .idle =>
      if s.sessionValid then
        some { s with callers := fun j => if j = i then .done none true else s.callers j }
      else
        match s.refreshPromise with
        | some pid =>
          some { s with callers := fun j =>
            if j = i then .awaitingRefresh pid false else s.callers j }
        | none =>
          some { s with
            refreshPromise := some s.promises.length,
            promises := s.promises ++ [none],
            fetchCount := s.fetchCount + 1,
            callers := fun j =>
              if j = i then .awaitingRefresh s.promises.length true else s.callers j }
    | _ => none
  | .settle pid o =>
    match s.promises.get? pid with
    | some none =>
      some { s with sessionValid := o, promises := s.promises.set pid (some o) }
    | _ => none
  | .resume i =>
    match s.callers i with
    | .awaitingRefresh pid isCreator =>
      match s.promises.get? pid with
      | some (some o) =>
        some { s with
          refreshPromise := if isCreator then none else s.refreshPromise,
          callers := fun j => if j = i then .done (some pid) o else s.callers j }
      | _ => none
    | _ => none

/-- Run a sequence of scheduler events (`none` if any is disabled). -/
def steps : FacadeState → List FacadeEv → Option FacadeState
  | s, [] => some s
  | s, e :: evs =>
    match step s e with
    | none => none
    | some s1 => steps s1 evs

/-- The initial state: no valid session, no stored promise, no fetches,
all callers idle. -/
def initState : FacadeState :=
  { sessionValid := false, refreshPromise := none, promises := [], fetchCount := 0,
    callers := fun _ => .idle }

/-- States reachable from the initial state by some event sequence. -/
def Reachable (s : FacadeState) : Prop :=
  ∃ evs, steps initState evs = some s

/-- The inductive invariant of the single-flight protocol: an unsettled
promise is always the currently stored handle; a creator always awaits
the currently stored handle; there is at most one creator; and a caller
finished through promise `pid` saw exactly that promise's settled
outcome. -/
structure SingleFlightInv (s : FacadeState) : Prop where
  unsettledCurrent : ∀ pid, s.promises.get? pid = some none → s.refreshPromise = some pid
  creatorCurrent : ∀ i pid, s.callers i = .awaitingRefresh pid true →
    s.refreshPromise = some pid
  creatorUnique : ∀ i j pi pj, s.callers i = .awaitingRefresh pi true →
    s.callers j = .awaitingRefresh pj true → i = j
  doneSettled : ∀ i pid o, s.callers i = .done (some pid) o →
    s.promises.get? pid = some (some o)

/-- The invariant maintained under invoke-only traces from a no-session
state: the session stays invalid, and either no promise was ever created
(zero fetches) or exactly one was (one fetch). -/
def InvokeQ (s : FacadeState) : Prop :=
  s.sessionValid = false ∧
    ((s.refreshPromise = none ∧ s.fetchCount = 0) ∨
      (s.refreshPromise.isSome = true ∧ s.fetchCount = 1))

/-- A concrete two-caller burst (witness module). -/
def evsW : List FacadeEv := [.invoke 0, .invoke 1]

/-! ## Theorems -/

theorem accBelow_mono {acc : List ScheduleRange} {q q' : ℚ} (h : accBelow acc q)
    (hq : q ≤ q') : accBelow acc q' :=
  fun r hr => le_trans (h r hr) hq

theorem addRange_wf {acc : List ScheduleRange} {f t : ℚ} {s : NormalizedStatus}
    (hwf : accWF acc) (hb : accBelow acc f) (hft : f < t) :
    accWF (addRange acc f t s) ∧ accBelow (addRange acc f t s) t := by
  obtain ⟨hval, hchain⟩ := hwf
  cases acc with
  | nil =>
    refine ⟨⟨?_, ?_⟩, ?_⟩
    · intro r hr
      simp only [addRange, List.mem_singleton] at hr
      subst hr
      exact hft
    · simp [addRange]
    · intro r hr
      simp only [addRange, List.mem_singleton] at hr
      subst hr
      exact le_refl t
  | cons last rest =>
    simp only [addRange]
    by_cases hcond : last.rto = f ∧ last.status = s
    · rw [if_pos hcond]
      obtain ⟨hto, _⟩ := hcond
      refine ⟨⟨?_, ?_⟩, ?_⟩
      · intro r hr
        rcases List.mem_cons.mp hr with h | h
        · subst h
          have hlast := hval last (List.mem_cons_self _ _)
          show last.rfrom < t
          calc last.rfrom < last.rto := hlast
            _ = f := hto
            _ < t := hft
        · exact hval r (List.mem_cons_of_mem _ h)
      · rw [List.chain'_cons']
        refine ⟨?_, (List.chain'_cons'.mp hchain).2⟩
        intro b hbmem
        exact (List.chain'_cons'.mp hchain).1 b hbmem
      · intro r hr
        rcases List.mem_cons.mp hr with h | h
        · subst h
          exact le_refl t
        · exact le_trans (hb r (List.mem_cons_of_mem _ h)) (le_of_lt hft)
    · rw [if_neg hcond]
      push_neg at hcond
      refine ⟨⟨?_, ?_⟩, ?_⟩
      · intro r hr
        rcases List.mem_cons.mp hr with h | h
        · subst h
          exact hft
        · exact hval r h
      · rw [List.chain'_cons']
        refine ⟨?_, hchain⟩
        intro b hbmem
        simp only [List.head?_cons, Option.mem_def, Option.some.injEq] at hbmem
        subst hbmem
        exact ⟨hb last (List.mem_cons_self _ _), fun heq => hcond heq⟩
      · intro r hr
        rcases List.mem_cons.mp hr with h | h
        · subst h
          exact le_refl t
        · exact le_trans (hb r h) (le_of_lt hft)

theorem hourStep_wf (dayData : Nat → Option ScheduleStatus) {acc : List ScheduleRange}
    {k : Nat} (hwf : accWF acc) (hb : accBelow acc ((k : ℚ) - 1)) :
    accWF (hourStep dayData acc k) ∧ accBelow (hourStep dayData acc k) (k : ℚ) := by
  have h1 : ((k : ℚ) - 1) < (k : ℚ) - 1 + 1/2 := by linarith
  have h2 : ((k : ℚ) - 1 + 1/2) < (k : ℚ) - 1 + 1 := by linarith
  have h3 : ((k : ℚ) - 1) < (k : ℚ) - 1 + 1 := by linarith
  have hk : ((k : ℚ) - 1 + 1) ≤ (k : ℚ) := by linarith
  unfold hourStep
  cases hday : dayData k with
  | none =>
    exact ⟨hwf, accBelow_mono hb (by linarith)⟩
  | some raw =>
    cases raw
    case mfirst =>
      dsimp only
      have s1 := addRange_wf (s := .maybe) hwf hb h1
      have s2 := addRange_wf (s := .yes) s1.1 s1.2 h2
      exact ⟨s2.1, accBelow_mono s2.2 hk⟩
    case msecond =>
      dsimp only
      have s1 := addRange_wf (s := .yes) hwf hb h1
      have s2 := addRange_wf (s := .maybe) s1.1 s1.2 h2
      exact ⟨s2.1, accBelow_mono s2.2 hk⟩
    case first =>
      dsimp only
      have s1 := addRange_wf (s := .no) hwf hb h1
      have s2 := addRange_wf (s := .yes) s1.1 s1.2 h2
      exact ⟨s2.1, accBelow_mono s2.2 hk⟩
    case second =>
      dsimp only
      have s1 := addRange_wf (s := .yes) hwf hb h1
      have s2 := addRange_wf (s := .no) s1.1 s1.2 h2
      exact ⟨s2.1, accBelow_mono s2.2 hk⟩
    all_goals
      dsimp only
      refine ⟨(addRange_wf hwf hb h3).1, accBelow_mono (addRange_wf hwf hb h3).2 hk⟩

theorem foldl_hourStep_wf (dayData : Nat → Option ScheduleStatus) :
    ∀ (ks : List Nat) (acc : List ScheduleRange) (b : ℚ),
      accWF acc → accBelow acc b → (∀ k ∈ ks, b ≤ (k : ℚ) - 1) →
      List.Pairwise (· < ·) ks → accWF (ks.foldl (hourStep dayData) acc)
  | [], _, _, hwf, _, _, _ => hwf
  | k :: rest, acc, b, hwf, hb, hks, hp => by
    simp only [List.foldl_cons]
    have hb' : accBelow acc ((k : ℚ) - 1) :=
      accBelow_mono hb (hks k (List.mem_cons_self _ _))
    have step := hourStep_wf dayData hwf hb'
    refine foldl_hourStep_wf dayData rest _ (k : ℚ) step.1 step.2 ?_
      (List.pairwise_cons.mp hp).2
    intro q hq
    have hlt : k < q := (List.pairwise_cons.mp hp).1 q hq
    have hcast : (k : ℚ) + 1 ≤ (q : ℚ) := by exact_mod_cast Nat.succ_le_of_lt hlt
    linarith

/-- C2: for every single-day hourly grid, the range list produced by
`compressDaySchedule` is such that every range has `rfrom < rto`, ranges
appear in ascending time order and are mutually non-overlapping, and no two
consecutive ranges both share a boundary and have equal status (adjacent
equal-status ranges are always merged by extending the previous range's
end). -/
theorem compressDaySchedule_invariants (dayData : Nat → Option ScheduleStatus) :
    List.Forall (fun r => r.rfrom < r.rto) (compressDaySchedule dayData) ∧
    List.Chain' rangesOrdered (compressDaySchedule dayData) := by
  have hkeys : ∀ k ∈ hourKeys, (0 : ℚ) ≤ (k : ℚ) - 1 := by
    intro k hk
    simp only [hourKeys, List.mem_map, List.mem_range] at hk
    obtain ⟨j, _, rfl⟩ := hk
    have hj : (0 : ℚ) ≤ (j : ℚ) := Nat.cast_nonneg j
    push_cast
    linarith
  have hpair : List.Pairwise (· < ·) hourKeys := by
    refine List.Pairwise.map _ ?_ (List.pairwise_lt_range 24)
    intro a b hab
    omega
  have hwf := foldl_hourStep_wf dayData hourKeys [] 0
    ⟨fun r hr => absurd hr (List.not_mem_nil r), List.chain'_nil⟩
    (fun r hr => absurd hr (List.not_mem_nil r)) hkeys hpair
  obtain ⟨hval, hchain⟩ := hwf
  constructor
  · rw [List.forall_iff_forall_mem]
    intro r hr
    rw [compressDaySchedule, List.mem_reverse] at hr
    exact hval r hr
  · rw [compressDaySchedule, List.chain'_reverse]
    exact hchain

theorem foldl_hourStep_skip (dayData : Nat → Option ScheduleStatus) :
    ∀ (ks : List Nat) (acc : List ScheduleRange),
      (∀ h ∈ ks, dayData h = none) → ks.foldl (hourStep dayData) acc = acc
  | [], _, _ => rfl
  | k :: rest, acc, hnone => by
    simp only [List.foldl_cons]
    have hstep : hourStep dayData acc k = acc := by
      unfold hourStep
      rw [hnone k (List.mem_cons_self _ _)]
    rw [hstep]
    exact foldl_hourStep_skip dayData rest acc
      (fun h hh => hnone h (List.mem_cons_of_mem _ hh))

theorem hourKeys_decomp (k : Nat) (h1 : 1 ≤ k) (h2 : k ≤ 24) :
    ∃ pre post, hourKeys = pre ++ k :: post ∧
      (∀ h ∈ pre, h < k) ∧ (∀ h ∈ post, k < h) := by
  refine ⟨(List.range (k - 1)).map (· + 1),
    (List.range (24 - k)).map (fun j => k + j + 1), ?_, ?_, ?_⟩
  · have hsum : (k - 1) + (25 - k) = 24 := by omega
    have hsplit : List.range 24 =
        List.range (k - 1) ++ (List.range (25 - k)).map (fun x => (k - 1) + x) := by
      rw [← hsum, List.range_add]
    unfold hourKeys
    rw [hsplit, List.map_append]
    congr 1
    have h25 : 25 - k = (24 - k) + 1 := by omega
    rw [h25, List.range_succ_eq_map]
    simp only [List.map_cons, List.map_map]
    congr 1
    · omega
    · apply List.map_congr_left
      intro j _
      simp only [Function.comp_apply]
      omega
  · intro h hh
    simp only [List.mem_map, List.mem_range] at hh
    obtain ⟨j, hj, rfl⟩ := hh
    omega
  · intro h hh
    simp only [List.mem_map, List.mem_range] at hh
    obtain ⟨j, _, rfl⟩ := hh
    omega

/-- C3: for each of the four half-hour-split codes and every hour key `k`
in 1..24, compressing a grid whose only entry maps `k` to that code yields
exactly two ranges of width 1/2, `[k-1, k-1/2)` and `[k-1/2, k)`, with the
statuses of the fixed first-half/second-half table: `mfirst = (maybe, yes)`,
`msecond = (yes, maybe)`, `first = (no, yes)`, `second = (yes, no)`. -/
theorem compressDaySchedule_halfHourCodes (k : Nat) (h1 : 1 ≤ k) (h2 : k ≤ 24) :
    compressDaySchedule (singleHourGrid k .mfirst) =
      [⟨(k : ℚ) - 1, (k : ℚ) - 1/2, .maybe⟩, ⟨(k : ℚ) - 1/2, (k : ℚ), .yes⟩] ∧
    compressDaySchedule (singleHourGrid k .msecond) =
      [⟨(k : ℚ) - 1, (k : ℚ) - 1/2, .yes⟩, ⟨(k : ℚ) - 1/2, (k : ℚ), .maybe⟩] ∧
    compressDaySchedule (singleHourGrid k .first) =
      [⟨(k : ℚ) - 1, (k : ℚ) - 1/2, .no⟩, ⟨(k : ℚ) - 1/2, (k : ℚ), .yes⟩] ∧
    compressDaySchedule (singleHourGrid k .second) =
      [⟨(k : ℚ) - 1, (k : ℚ) - 1/2, .yes⟩, ⟨(k : ℚ) - 1/2, (k : ℚ), .no⟩] := by
  obtain ⟨pre, post, hdecomp, hpre, hpost⟩ := hourKeys_decomp k h1 h2
  have heval : ∀ (c : ScheduleStatus),
      compressDaySchedule (singleHourGrid k c) =
        (hourStep (singleHourGrid k c) [] k).reverse := by
    intro c
    have hgrid : ∀ h, h ≠ k → singleHourGrid k c h = none := by
      intro h hh
      simp [singleHourGrid, hh]
    rw [compressDaySchedule, hdecomp, List.foldl_append, List.foldl_cons]
    rw [foldl_hourStep_skip _ pre [] (fun h hh => hgrid h (Nat.ne_of_lt (hpre h hh)))]
    rw [foldl_hourStep_skip _ post _ (fun h hh => hgrid h (Nat.ne_of_gt (hpost h hh)))]
  have hhalf : ((k : ℚ) - 1 + 1/2) = (k : ℚ) - 1/2 := by ring
  have hfull : ((k : ℚ) - 1 + 1) = (k : ℚ) := by ring
  refine ⟨?_, ?_, ?_, ?_⟩ <;>
  · rw [heval]
    unfold hourStep
    simp only [singleHourGrid, if_pos rfl, if_true, eq_self_iff_true, addRange,
      List.reverse_cons, List.reverse_nil, List.nil_append, List.cons_append,
      reduceCtorEq, and_false, if_false]
    rw [hhalf, hfull]

/-- Witness for C3 at hour key 7 with code `mfirst`. -/
theorem compressDaySchedule_halfHourCodes_witness :
    1 ≤ 7 ∧ 7 ≤ 24 ∧
    compressDaySchedule (singleHourGrid 7 .mfirst) =
      [⟨((7 : Nat) : ℚ) - 1, ((7 : Nat) : ℚ) - 1/2, .maybe⟩,
        ⟨((7 : Nat) : ℚ) - 1/2, ((7 : Nat) : ℚ), .yes⟩] :=
  ⟨by decide, by decide, (compressDaySchedule_halfHourCodes 7 (by decide) (by decide)).1⟩

theorem attemptList_length (m : Nat) : (attemptList m).length = m := by
  simp [attemptList]

theorem attemptList_mem {i m : Nat} : i ∈ attemptList m ↔ 1 ≤ i ∧ i ≤ m := by
  simp only [attemptList, List.mem_map, List.mem_range]
  constructor
  · rintro ⟨j, hj, rfl⟩
    omega
  · rintro ⟨hi1, hi2⟩
    exact ⟨i - 1, by omega, by omega⟩

theorem attemptList_getLast {m : Nat} (hm : 1 ≤ m) : (attemptList m).getLast? = some m := by
  cases m with
  | zero => omega
  | succ n =>
    rw [attemptList, List.range_succ, List.map_append]
    simp [List.getLast?_concat]

theorem attemptList_decomp (k m : Nat) (h1 : 1 ≤ k) (h2 : k ≤ m) :
    ∃ l2, attemptList m = attemptList (k - 1) ++ k :: l2 := by
  refine ⟨(List.range (m - k)).map (fun j => k + j + 1), ?_⟩
  have hsum : (k - 1) + (m + 1 - k) = m := by omega
  have hsplit := List.range_add (k - 1) (m + 1 - k)
  rw [hsum] at hsplit
  unfold attemptList
  rw [hsplit, List.map_append]
  congr 1
  have hm1 : m + 1 - k = (m - k) + 1 := by omega
  rw [hm1, List.range_succ_eq_map]
  simp only [List.map_cons, List.map_map]
  congr 1
  · omega
  · apply List.map_congr_left
    intro j _
    simp only [Function.comp_apply]
    omega

theorem retryLoop_calls_le {α ε : Type} (fn : Nat → CallOutcome α ε) (m : Nat) :
    ∀ (l : List Nat) (lastE : Option ε), (retryLoop fn m lastE l).2 ≤ l.length
  | [], _ => by simp [retryLoop]
  | attempt :: rest, lastE => by
    simp only [retryLoop]
    cases hfa : fn attempt with
    | retPlain v => simp
    | retOk v => simp
    | retErr e =>
      have ih := retryLoop_calls_le fn m rest (some e)
      simp only [List.length_cons]
      omega
    | thrown e =>
      have ih := retryLoop_calls_le fn m rest (some e)
      simp only [List.length_cons]
      omega

theorem retryLoop_allFail {α ε : Type} (fn : Nat → CallOutcome α ε) (m : Nat) :
    ∀ (l : List Nat) (lastE : Option ε) (lastA : Nat), l.getLast? = some lastA →
      (∀ i ∈ l, (outcomeFailure (fn i)).isSome) →
      retryLoop fn m lastE l = (.err ⟨m, outcomeFailure (fn lastA)⟩, l.length)
  | [], _, lastA, hlast, _ => by simp at hlast
  | [attempt], lastE, lastA, hlast, hfail => by
    simp only [List.getLast?_singleton, Option.some.injEq] at hlast
    subst hlast
    have hf := hfail attempt (List.mem_singleton.mpr rfl)
    simp only [retryLoop]
    cases hfa : fn attempt with
    | retPlain v => simp [outcomeFailure, hfa] at hf
    | retOk v => simp [outcomeFailure, hfa] at hf
    | retErr e => simp [retryLoop, outcomeFailure, hfa]
    | thrown e => simp [retryLoop, outcomeFailure, hfa]
  | attempt :: next :: rest, lastE, lastA, hlast, hfail => by
    have hlast' : (next :: rest).getLast? = some lastA := by
      rwa [List.getLast?_cons_cons] at hlast
    have hfail' : ∀ i ∈ next :: rest, (outcomeFailure (fn i)).isSome :=
      fun i hi => hfail i (List.mem_cons_of_mem _ hi)
    have hf := hfail attempt (List.mem_cons_self _ _)
    cases hfa : fn attempt with
    | retPlain v => simp [outcomeFailure, hfa] at hf
    | retOk v => simp [outcomeFailure, hfa] at hf
    | retErr e =>
      rw [retryLoop, hfa]
      dsimp only
      rw [retryLoop_allFail fn m (next :: rest) (some e) lastA hlast' hfail']
      simp
    | thrown e =>
      rw [retryLoop, hfa]
      dsimp only
      rw [retryLoop_allFail fn m (next :: rest) (some e) lastA hlast' hfail']
      simp

theorem retryLoop_prefix_success {α ε : Type} (fn : Nat → CallOutcome α ε) (m k : Nat)
    (v : α) (hsucc : outcomeSuccess (fn k) = some v) :
    ∀ (l1 l2 : List Nat) (lastE : Option ε),
      (∀ i ∈ l1, (outcomeFailure (fn i)).isSome) →
      retryLoop fn m lastE (l1 ++ k :: l2) = (.ok v, l1.length + 1)
  | [], l2, lastE, _ => by
    simp only [List.nil_append, retryLoop]
    cases hfa : fn k with
    | retPlain w =>
      rw [hfa] at hsucc
      simp only [outcomeSuccess, Option.some.injEq] at hsucc
      subst hsucc
      simp
    | retOk w =>
      rw [hfa] at hsucc
      simp only [outcomeSuccess, Option.some.injEq] at hsucc
      subst hsucc
      simp
    | retErr e =>
      rw [hfa] at hsucc
      simp [outcomeSuccess] at hsucc
    | thrown e =>
      rw [hfa] at hsucc
      simp [outcomeSuccess] at hsucc
  | a :: l1, l2, lastE, hfail => by
    have hf := hfail a (List.mem_cons_self _ _)
    simp only [List.cons_append, retryLoop]
    cases hfa : fn a with
    | retPlain w => simp [outcomeFailure, hfa] at hf
    | retOk w => simp [outcomeFailure, hfa] at hf
    | retErr e =>
      dsimp only
      rw [List.append_eq, retryLoop_prefix_success fn m k v hsucc l1 l2 (some e)
        (fun i hi => hfail i (List.mem_cons_of_mem _ hi))]
      simp [Nat.add_comm]
    | thrown e =>
      dsimp only
      rw [List.append_eq, retryLoop_prefix_success fn m k v hsucc l1 l2 (some e)
        (fun i hi => hfail i (List.mem_cons_of_mem _ hi))]
      simp [Nat.add_comm]

/-- C4: `withRetry` invokes the operation at most `delays.length + 1`
times; if every invocation fails (throw and explicit failure `Result`
treated identically) it returns a failure `Result` carrying a `RetryError`
with `attempts = delays.length + 1` and `lastError` equal to the failure
of the final invocation; if the `k`-th invocation is the first success
(`k ≤ delays.length + 1`), it returns that success after exactly `k`
invocations. -/
theorem withRetry_spec {α ε : Type} (fn : Nat → CallOutcome α ε) (delays : List Nat) :
    ((withRetry fn delays).2 ≤ delays.length + 1) ∧
    (∀ e, (∀ i, 1 ≤ i → i ≤ delays.length + 1 → (outcomeFailure (fn i)).isSome) →
      outcomeFailure (fn (delays.length + 1)) = some e →
      withRetry fn delays = (.err ⟨delays.length + 1, some e⟩, delays.length + 1)) ∧
    (∀ k v, 1 ≤ k → k ≤ delays.length + 1 →
      (∀ i, 1 ≤ i → i < k → (outcomeFailure (fn i)).isSome) →
      outcomeSuccess (fn k) = some v →
      withRetry fn delays = (.ok v, k)) := by
  refine ⟨?_, ?_, ?_⟩
  · calc (withRetry fn delays).2 ≤ (attemptList (delays.length + 1)).length :=
        retryLoop_calls_le fn _ _ none
      _ = delays.length + 1 := attemptList_length _
  · intro e hall hfin
    have hlast := attemptList_getLast (m := delays.length + 1) (by omega)
    have heq := retryLoop_allFail fn (delays.length + 1) (attemptList (delays.length + 1))
      none (delays.length + 1) hlast
      (fun i hi => hall i (attemptList_mem.mp hi).1 (attemptList_mem.mp hi).2)
    rw [withRetry, heq, hfin, attemptList_length]
  · intro k v hk1 hk2 hfails hsucc
    obtain ⟨l2, hdec⟩ := attemptList_decomp k (delays.length + 1) hk1 hk2
    rw [withRetry, hdec, retryLoop_prefix_success fn _ k v hsucc _ _ none
      (fun i hi => hfails i (attemptList_mem.mp hi).1 (by
        have := (attemptList_mem.mp hi).2
        omega))]
    rw [attemptList_length]
    congr 1
    omega

/-- Witness for C4 at `delays = [10, 10]`: an always-throwing operation
yields `RetryExhausted` with `attempts = 3` after exactly 3 invocations;
an operation succeeding on the 2nd call returns that success after exactly
2 invocations. -/
theorem withRetry_spec_witness :
    withRetry alwaysThrow [10, 10] = (.err ⟨3, some "boom"⟩, 3) ∧
    withRetry secondTrySucceeds [10, 10] = (.ok 5, 2) := by
  constructor
  · exact (withRetry_spec alwaysThrow [10, 10]).2.1 "boom" (fun i _ _ => rfl) rfl
  · refine (withRetry_spec secondTrySucceeds [10, 10]).2.2 2 5 (by decide) (by decide)
      ?_ rfl
    intro i h1 h2
    have hi : i = 1 := by omega
    subst hi
    rfl

theorem retryLoopObs_agree {α ε ω : Type} (fn : Nat → CallOutcome α ε)
    (obs : Nat → Option ε → Nat → ω) (delays : List Nat) (m : Nat) :
    ∀ (l : List Nat) (lastE : Option ε),
      (retryLoopObs fn obs delays m lastE l).1 = (retryLoop fn m lastE l).1 ∧
      (retryLoopObs fn obs delays m lastE l).2.1 = (retryLoop fn m lastE l).2
  | [], _ => ⟨rfl, rfl⟩
  | attempt :: rest, lastE => by
    have ihE : ∀ e : ε,
        (retryLoopObs fn obs delays m (some e) rest).1 = (retryLoop fn m (some e) rest).1 ∧
        (retryLoopObs fn obs delays m (some e) rest).2.1 = (retryLoop fn m (some e) rest).2 :=
      fun e => retryLoopObs_agree fn obs delays m rest (some e)
    simp only [retryLoop, retryLoopObs]
    cases hfa : fn attempt with
    | retPlain v => exact ⟨rfl, rfl⟩
    | retOk v => exact ⟨rfl, rfl⟩
    | retErr e =>
      by_cases hlt : attempt < m <;>
        simp [hlt, (ihE e).1, (ihE e).2]
    | thrown e =>
      by_cases hlt : attempt < m <;>
        simp [hlt, (ihE e).1, (ihE e).2]

theorem retryLoopObs_natural {α ε ω : Type} (fn : Nat → CallOutcome α ε)
    (obs : Nat → Option ε → Nat → ω) (delays : List Nat) (m : Nat) :
    ∀ (l : List Nat) (lastE : Option ε),
      (retryLoopObs fn obs delays m lastE l).2.2 =
        ((retryLoopObs fn (fun a e d => (a, e, d)) delays m lastE l).2.2).map
          (fun x => obs x.1 x.2.1 x.2.2)
  | [], _ => rfl
  | attempt :: rest, lastE => by
    have ihE : ∀ e : ε,
        (retryLoopObs fn obs delays m (some e) rest).2.2 =
          ((retryLoopObs fn (fun a e d => (a, e, d)) delays m (some e) rest).2.2).map
            (fun x => obs x.1 x.2.1 x.2.2) :=
      fun e => retryLoopObs_natural fn obs delays m rest (some e)
    simp only [retryLoopObs]
    cases hfa : fn attempt with
    | retPlain v => rfl
    | retOk v => rfl
    | retErr e =>
      by_cases hlt : attempt < m <;> simp [hlt, ihE e]
    | thrown e =>
      by_cases hlt : attempt < m <;> simp [hlt, ihE e]

theorem retryLoopObs_canonical_mem {α ε : Type} (fn : Nat → CallOutcome α ε)
    (delays : List Nat) (m : Nat) :
    ∀ (l : List Nat) (lastE : Option ε) (x : Nat × Option ε × Nat),
      x ∈ (retryLoopObs fn (fun a e d => (a, e, d)) delays m lastE l).2.2 →
      x.1 ∈ l ∧ x.1 < m ∧ x.2.1 = outcomeFailure (fn x.1) ∧
        x.2.2 = delays.getD (x.1 - 1) 0
  | [], _, x, hx => by simp [retryLoopObs] at hx
  | attempt :: rest, lastE, x, hx => by
    simp only [retryLoopObs] at hx
    cases hfa : fn attempt with
    | retPlain v =>
      rw [hfa] at hx
      simp at hx
    | retOk v =>
      rw [hfa] at hx
      simp at hx
    | retErr e =>
      rw [hfa] at hx
      dsimp only at hx
      by_cases hlt : attempt < m
      · rw [if_pos hlt] at hx
        rcases List.mem_cons.mp hx with h | h
        · subst h
          exact ⟨List.mem_cons_self _ _, hlt, by simp [outcomeFailure, hfa], rfl⟩
        · have ih := retryLoopObs_canonical_mem fn delays m rest (some e) x h
          exact ⟨List.mem_cons_of_mem _ ih.1, ih.2.1, ih.2.2.1, ih.2.2.2⟩
      · rw [if_neg hlt] at hx
        have ih := retryLoopObs_canonical_mem fn delays m rest (some e) x hx
        exact ⟨List.mem_cons_of_mem _ ih.1, ih.2.1, ih.2.2.1, ih.2.2.2⟩
    | thrown e =>
      rw [hfa] at hx
      dsimp only at hx
      by_cases hlt : attempt < m
      · rw [if_pos hlt] at hx
        rcases List.mem_cons.mp hx with h | h
        · subst h
          exact ⟨List.mem_cons_self _ _, hlt, by simp [outcomeFailure, hfa], rfl⟩
        · have ih := retryLoopObs_canonical_mem fn delays m rest (some e) x h
          exact ⟨List.mem_cons_of_mem _ ih.1, ih.2.1, ih.2.2.1, ih.2.2.2⟩
      · rw [if_neg hlt] at hx
        have ih := retryLoopObs_canonical_mem fn delays m rest (some e) x hx
        exact ⟨List.mem_cons_of_mem _ ih.1, ih.2.1, ih.2.2.1, ih.2.2.2⟩

/-- C5: the `onRetry` observer has no effect on control flow: for every
operation, delay list and observer, `withRetry` with the observer returns
the same result and invokes the operation the same number of times as
without one, and the observer fires only before a sleep (attempt number at
most `delays.length`), receiving the attempt number, the failure of that
attempt, and the upcoming configured delay. -/
theorem withRetry_observer_noEffect {α ε ω : Type} (fn : Nat → CallOutcome α ε)
    (delays : List Nat) (onRetry : Nat → Option ε → Nat → ω) :
    (withRetryObs fn delays onRetry).1 = (withRetry fn delays).1 ∧
    (withRetryObs fn delays onRetry).2.1 = (withRetry fn delays).2 ∧
    (withRetryObs fn delays onRetry).2.2 =
      ((withRetryObs fn delays (fun a e d => (a, e, d))).2.2).map
        (fun x => onRetry x.1 x.2.1 x.2.2) ∧
    ∀ x ∈ (withRetryObs fn delays (fun a e d => (a, e, d))).2.2,
      1 ≤ x.1 ∧ x.1 ≤ delays.length ∧ x.2.1 = outcomeFailure (fn x.1) ∧
        x.2.2 = delays.getD (x.1 - 1) 0 := by
  refine ⟨(retryLoopObs_agree fn onRetry delays _ _ none).1,
    (retryLoopObs_agree fn onRetry delays _ _ none).2,
    retryLoopObs_natural fn onRetry delays _ _ none, ?_⟩
  intro x hx
  obtain ⟨hmem, hlt, he, hd⟩ :=
    retryLoopObs_canonical_mem fn delays (delays.length + 1)
      (attemptList (delays.length + 1)) none x hx
  exact ⟨(attemptList_mem.mp hmem).1, by omega, he, hd⟩

/-- Witness for C5 at a concrete operation, delays and observer. -/
theorem withRetry_observer_noEffect_witness :
    (withRetryObs alwaysThrow [10, 10] (fun a _ d => a * 1000 + d)).1 =
      (withRetry alwaysThrow [10, 10]).1 ∧
    ((1, some "boom", 10) ∈
      (withRetryObs alwaysThrow [10, 10] (fun a e d => (a, e, d))).2.2) ∧
    some "boom" = outcomeFailure (alwaysThrow 1) := by
  refine ⟨(withRetry_observer_noEffect alwaysThrow [10, 10]
    (fun a _ d => a * 1000 + d)).1, by decide, ?_⟩
  exact ((withRetry_observer_noEffect alwaysThrow [10, 10]
    (fun a e d => (a, e, d))).2.2.2 (1, some "boom", 10) (by decide)).2.2.1

theorem evalAstF_reject {node : AstNode} {depth fuel : Nat}
    (hd : ¬ MAX_AST_DEPTH < depth) (hn : ¬ codeAccepted node) :
    ∃ e, evalAstF (fuel + 1) node depth = .error e := by
  cases node with
  | literal v => exact absurd trivial hn
  | arrayExpr els => exact absurd trivial hn
  | objectExpr props => exact absurd trivial hn
  | unaryExpr op arg =>
    by_cases hop : op = "-"
    · subst hop
      cases arg with
      | literal v => exact absurd ⟨rfl, v, rfl⟩ hn
      | arrayExpr els => exact ⟨.unsupportedUnary "-", by simp [evalAstF, hd]⟩
      | objectExpr props => exact ⟨.unsupportedUnary "-", by simp [evalAstF, hd]⟩
      | unaryExpr op2 arg2 => exact ⟨.unsupportedUnary "-", by simp [evalAstF, hd]⟩
      | ident name => exact ⟨.unsupportedUnary "-", by simp [evalAstF, hd]⟩
      | memberExpr o p c => exact ⟨.unsupportedUnary "-", by simp [evalAstF, hd]⟩
      | assignExpr l r => exact ⟨.unsupportedUnary "-", by simp [evalAstF, hd]⟩
      | other kind => exact ⟨.unsupportedUnary "-", by simp [evalAstF, hd]⟩
    · exact ⟨.unsupportedUnary op, by simp [evalAstF, hd, hop]⟩
  | ident name => exact ⟨.unsupportedNode "Identifier", by simp [evalAstF, hd, nodeKind]⟩
  | memberExpr o p c =>
    exact ⟨.unsupportedNode "MemberExpression", by simp [evalAstF, hd, nodeKind]⟩
  | assignExpr l r =>
    exact ⟨.unsupportedNode "AssignmentExpression", by simp [evalAstF, hd, nodeKind]⟩
  | other kind => exact ⟨.unsupportedNode kind, by simp [evalAstF, hd, nodeKind]⟩

/-- C6 (amended): the restricted literal evaluator accepts only literal
values, array literals, object literals, and unary minus applied to a
literal (the literal coerced to a number); an AST node of any other shape
throws immediately, and any evaluation at a depth exceeding the bound of
50 throws rather than recursing. -/
theorem evalAst_restricted (node : AstNode) (depth : Nat) :
    (MAX_AST_DEPTH < depth → evalAst node depth = .error .maxDepth) ∧
    (¬ codeAccepted node → ∃ e, evalAst node depth = .error e) ∧
    (∀ v, evalAst node depth = .ok v → codeAccepted node) := by
  unfold evalAst
  cases hfuel : MAX_AST_DEPTH + 2 - depth with
  | zero =>
    have hd : MAX_AST_DEPTH < depth := by
      unfold MAX_AST_DEPTH at hfuel ⊢
      omega
    refine ⟨fun _ => rfl, fun _ => ⟨.maxDepth, rfl⟩, fun v hv => ?_⟩
    exact Except.noConfusion hv
  | succ fuel =>
    by_cases hd : MAX_AST_DEPTH < depth
    · refine ⟨fun _ => by simp [evalAstF, hd], fun _ => ⟨.maxDepth, by simp [evalAstF, hd]⟩,
        fun v hv => ?_⟩
      simp [evalAstF, hd] at hv
    · have hsecond := fun hn => @evalAstF_reject node depth fuel hd hn
      refine ⟨fun h => absurd h hd, hsecond, fun v hv => ?_⟩
      by_cases hacc : codeAccepted node
      · exact hacc
      · obtain ⟨e, he⟩ := hsecond hacc
        rw [he] at hv
        exact Except.noConfusion hv

/-- Witness for C6: a `CallExpression`-like node is rejected at depth 0,
and any node at depth 51 hits the depth bound. -/
theorem evalAst_restricted_witness :
    (MAX_AST_DEPTH < 51 ∧ evalAst (.other "CallExpression") 51 = .error .maxDepth) ∧
    (¬ codeAccepted (.other "CallExpression") ∧
      ∃ e, evalAst (.other "CallExpression") 0 = .error e) :=
  ⟨⟨by decide, (evalAst_restricted (.other "CallExpression") 51).1 (by decide)⟩,
    ⟨fun h => h, (evalAst_restricted (.other "CallExpression") 0).2.1 (fun h => h)⟩⟩

/-- C6 counterexample: unary minus applied to the boolean literal `true`
is accepted by `evalAst` (evaluating to `-1` by numeric coercion) although
it is not the negation of a numeric literal, refuting the claim that only
literals, arrays, objects and unary negation of a numeric literal are
accepted. -/
theorem evalAst_spec_counterexample :
    evalAst (.unaryExpr "-" (.literal (.boolV true))) 0 = .ok (.num (-1)) ∧
    ¬ specAccepted (.unaryExpr "-" (.literal (.boolV true))) := by
  constructor
  · rfl
  · rintro ⟨-, q, hq⟩
    simp at hq

/-- C7: for every document without the csrf-token meta tag, the parser
returns `RegionUnavailable` when a bot-interstitial marker is present and
a `ParseError` otherwise — the bot check runs before the generic
`ParseError` fallback, and `parseTemplate` forwards `extractCsrfMeta`'s
error unchanged. -/
theorem parseTemplate_botInterstitial (doc : HtmlDoc) (habs : doc.csrfMeta = none) :
    (isBotProtectionPage doc.text = true →
      extractCsrfMeta doc = .err (.regionUnavailableErr none) ∧
      parseTemplate doc = .err (.regionUnavailableErr none)) ∧
    (isBotProtectionPage doc.text = false →
      ∃ found, extractCsrfMeta doc = .err (.parseErr "csrf" expectedCsrfMeta found) ∧
        parseTemplate doc = .err (.parseErr "csrf" expectedCsrfMeta found)) := by
  have hmiss : extractCsrfMeta doc = .err (csrfMissingError doc) := by
    unfold extractCsrfMeta
    rw [habs]
  have hpt : parseTemplate doc = .err (csrfMissingError doc) := by
    unfold parseTemplate
    rw [hmiss]
  constructor
  · intro hbot
    have he : csrfMissingError doc = .regionUnavailableErr none := by
      unfold csrfMissingError
      rw [hbot]
      simp
    rw [hmiss, hpt, he]
    exact ⟨rfl, rfl⟩
  · intro hbot
    have he : csrfMissingError doc =
        .parseErr "csrf" expectedCsrfMeta (some (truncatedText doc.text)) := by
      unfold csrfMissingError
      rw [hbot]
      simp
    exact ⟨some (truncatedText doc.text), by rw [hmiss, he], by rw [hpt, he]⟩

/-- Witness for C7 on two concrete documents: one holding only a bot
marker, one holding neither marker nor meta tag. -/
theorem parseTemplate_botInterstitial_witness :
    (botDoc.csrfMeta = none ∧ isBotProtectionPage botDoc.text = true ∧
      parseTemplate botDoc = .err (.regionUnavailableErr none)) ∧
    (plainDoc.csrfMeta = none ∧ isBotProtectionPage plainDoc.text = false ∧
      ∃ found, parseTemplate plainDoc = .err (.parseErr "csrf" expectedCsrfMeta found)) := by
  refine ⟨⟨rfl, by decide, ((parseTemplate_botInterstitial botDoc rfl).1 (by decide)).2⟩,
    ⟨rfl, by decide, ?_⟩⟩
  obtain ⟨found, _, h2⟩ := (parseTemplate_botInterstitial plainDoc rfl).2 (by decide)
  exact ⟨found, h2⟩

theorem lookup_setMap {β : Type} (k : String) (v : β) :
    ∀ fields : List (String × β),
      List.lookup k (fields.map (fun kv => if kv.1 = k then (k, v) else kv)) =
        if fields.any (fun kv => kv.1 = k) then some v else none
  | [] => by simp
  | kv :: rest => by
    by_cases hk : kv.1 = k
    · rw [List.map_cons, if_pos hk]
      simp [List.lookup, List.any_cons, hk]
    · rw [List.map_cons, if_neg hk]
      have hk' : (k == kv.1) = false := beq_eq_false_iff_ne.mpr (Ne.symm hk)
      simp only [List.lookup, hk', lookup_setMap k v rest, List.any_cons]
      by_cases hX : (rest.any fun p => decide (p.1 = k)) = true
      · rw [if_pos hX, if_pos (by simp [hX])]
      · rw [if_neg hX, if_neg ?_]
        intro habs
        rcases Bool.or_eq_true_iff.mp habs with h | h
        · exact hk (of_decide_eq_true h)
        · exact hX h

theorem lookup_absent_append {β : Type} (k : String) (v : β) :
    ∀ fields : List (String × β),
      fields.any (fun kv => kv.1 = k) = false →
      List.lookup k (fields ++ [(k, v)]) = some v
  | [], _ => by simp [List.lookup]
  | kv :: rest, h => by
    simp only [List.any_cons, Bool.or_eq_false_iff, decide_eq_false_iff_not] at h
    have hk' : (k == kv.1) = false := beq_eq_false_iff_ne.mpr (Ne.symm h.1)
    simp only [List.cons_append, List.lookup, hk']
    exact lookup_absent_append k v rest h.2

theorem recordSet_lookup {β : Type} (jar : List (String × β)) (k : String) (v : β) :
    List.lookup k (recordSet jar k v) = some v := by
  unfold recordSet
  by_cases hmem : jar.any (fun kv => kv.1 = k)
  · rw [if_pos hmem, lookup_setMap, if_pos hmem]
  · rw [if_neg hmem]
    exact lookup_absent_append k v jar (Bool.eq_false_iff.mpr hmem)

theorem recordSet_keysNodup {β : Type} (jar : List (String × β)) (k : String) (v : β)
    (hnodup : (jar.map Prod.fst).Nodup) : ((recordSet jar k v).map Prod.fst).Nodup := by
  unfold recordSet
  by_cases hmem : jar.any (fun kv => kv.1 = k)
  · rw [if_pos hmem]
    have hkeys : (jar.map (fun kv => if kv.1 = k then (k, v) else kv)).map Prod.fst =
        jar.map Prod.fst := by
      rw [List.map_map]
      apply List.map_congr_left
      intro kv _
      by_cases hk : kv.1 = k
      · simp [hk]
      · simp [hk]
    rw [hkeys]
    exact hnodup
  · rw [if_neg hmem, List.map_append]
    have hk : k ∉ jar.map Prod.fst := by
      intro hkmem
      obtain ⟨kv, hkv, hfst⟩ := List.mem_map.mp hkmem
      exact hmem (List.any_eq_true.mpr ⟨kv, hkv, by simp [hfst]⟩)
    simp only [List.map_cons, List.map_nil]
    rw [List.nodup_append]
    exact ⟨hnodup, List.nodup_singleton k, by simp [hk]⟩

/-- C8: `absorb` on the two same-name example headers leaves exactly one
cookie with the last value; malformed headers (no `name=value` before the
first `;`) are silently ignored; same-name absorption overwrites (lookup
yields the new value, and key uniqueness is preserved); and
`getFiltered` keeps exactly the cookies whose names match the
region-scoped allow-list of prefixes. -/
theorem cookieJar_absorb_getFiltered :
    (absorb [] ["session=abc123; Path=/", "session=xyz; Path=/"] = [("session", "xyz")]) ∧
    (∀ jar header, parseCookiePair header = none → absorbOne jar header = jar) ∧
    (∀ (jar : List (String × String)) (k v : String),
      List.lookup k (recordSet jar k v) = some v) ∧
    (∀ (jar : List (String × String)) (k v : String), (jar.map Prod.fst).Nodup →
      ((recordSet jar k v).map Prod.fst).Nodup) ∧
    (∀ (jar : List (String × String)) (region : RegionCode) (kv : String × String),
      kv ∈ getFilteredList jar region ↔ kv ∈ jar ∧ cookieAllowed region kv.1 = true) := by
  refine ⟨by decide, ?_, recordSet_lookup, recordSet_keysNodup, ?_⟩
  · intro jar header h
    unfold absorbOne
    rw [h]
  · intro jar region kv
    unfold getFilteredList
    exact List.mem_filter

/-- Witness for C8: a header without `=` is ignored, and a
region-prefixed cookie passes the filter while the rest are dropped. -/
theorem cookieJar_absorb_getFiltered_witness :
    (absorbOne [("a", "1")] "no-equals-here" = [("a", "1")]) ∧
    (("dtek-kem-v2", "x") ∈ getFilteredList [("dtek-kem-v2", "x"), ("tracker", "y")] .kem) ∧
    (("dtek-kem-v2", "x"), "dtek-kem-v2").2 = "dtek-kem-v2" := by
  refine ⟨cookieJar_absorb_getFiltered.2.1 [("a", "1")] "no-equals-here" (by decide),
    (cookieJar_absorb_getFiltered.2.2.2.2 [("dtek-kem-v2", "x"), ("tracker", "y")] .kem
      ("dtek-kem-v2", "x")).mpr ⟨by decide, by decide⟩, rfl⟩

/-- C9: when the authenticated status fetch inside `getStatus` fails (on
a cache miss, with a valid session), an auth-class failure — a
`NETWORK_ERROR` with HTTP status 401 or 403 — clears the session
immediately (session absent, expiry reset to 0) even though the TTL has
not elapsed, while a non-auth failure leaves the session and expiry
unchanged; in both cases the error is returned. -/
theorem getStatus_authFailure_invalidatesSession (svc : Svc) (now : Nat)
    (city street : String) (cmp : String → String → Bool)
    (refresh : Result SessionState DtekErr) (e : DtekErr)
    (hmiss : (cacheGet svc.statusCache (city ++ ":" ++ street) now).1 = none)
    (hvalid : sessionValid svc now = true) :
    (DtekErr.isAuthError e = true →
      (getStatusSeq svc now city street cmp refresh (.err e)).1 = .err e ∧
      (getStatusSeq svc now city street cmp refresh (.err e)).2.session = none ∧
      (getStatusSeq svc now city street cmp refresh (.err e)).2.sessionExpiresAt = 0) ∧
    (DtekErr.isAuthError e = false →
      (getStatusSeq svc now city street cmp refresh (.err e)).1 = .err e ∧
      (getStatusSeq svc now city street cmp refresh (.err e)).2.session = svc.session ∧
      (getStatusSeq svc now city street cmp refresh (.err e)).2.sessionExpiresAt =
        svc.sessionExpiresAt) := by
  obtain ⟨sess, hsess⟩ : ∃ s, svc.session = some s := by
    unfold sessionValid at hvalid
    rcases hs : svc.session with _ | s
    · rw [hs] at hvalid
      simp at hvalid
    · exact ⟨s, rfl⟩
  have hc : cacheGet svc.statusCache (city ++ ":" ++ street) now =
      (none, (cacheGet svc.statusCache (city ++ ":" ++ street) now).2) := by
    rw [← hmiss]
  have hval1 : sessionValid
      { svc with statusCache := (cacheGet svc.statusCache (city ++ ":" ++ street) now).2 }
      now = true := hvalid
  unfold getStatusSeq
  dsimp only
  rw [hc]
  dsimp only
  unfold ensureSessionSeq
  rw [if_pos hval1]
  dsimp only
  rw [hsess]
  dsimp only
  constructor
  · intro hauth
    rw [if_pos hauth]
    exact ⟨rfl, rfl, rfl⟩
  · intro hauth
    rw [if_neg (by simp [hauth])]
    exact ⟨rfl, rfl, rfl⟩

/-- Witness for C9 on a concrete service state with a valid session, an
empty cache, and a 401 network failure. -/
theorem getStatus_authFailure_witness :
    (cacheGet svcW.statusCache ("c" ++ ":" ++ "s") 0).1 = none ∧
    sessionValid svcW 0 = true ∧
    DtekErr.isAuthError authErrW = true ∧
    (getStatusSeq svcW 0 "c" "s" (fun _ _ => true) (.err (.sessionErr "unused"))
      (.err authErrW)).2.session = none := by
  refine ⟨rfl, rfl, rfl, ?_⟩
  exact ((getStatus_authFailure_invalidatesSession svcW 0 "c" "s" (fun _ _ => true)
    (.err (.sessionErr "unused")) authErrW rfl rfl).1 rfl).2.1

/-- C10: with a valid session, `getStreets` returns the snapshot's street
list for the city, naturally sorted (a permutation of the stored list);
in particular a city that is not a key of the street map yields a success
with the empty list, never an error. -/
theorem getStreets_spec (svc : Svc) (now : Nat) (city : String)
    (cmp : String → String → Bool) (refresh : Result SessionState DtekErr)
    (sess : SessionState) (hsess : svc.session = some sess)
    (hvalid : sessionValid svc now = true) :
    (getStreetsSeq svc now city cmp refresh).1 =
      .ok (naturalSort cmp ((sess.templateData.streetsByCity.lookup city).getD [])) ∧
    (sess.templateData.streetsByCity.lookup city = none →
      (getStreetsSeq svc now city cmp refresh).1 = .ok []) ∧
    List.Perm (naturalSort cmp ((sess.templateData.streetsByCity.lookup city).getD []))
      ((sess.templateData.streetsByCity.lookup city).getD []) := by
  have hmain : (getStreetsSeq svc now city cmp refresh).1 =
      .ok (naturalSort cmp ((sess.templateData.streetsByCity.lookup city).getD [])) := by
    unfold getStreetsSeq ensureSessionSeq
    rw [if_pos hvalid]
    dsimp only
    rw [hsess]
  refine ⟨hmain, ?_, List.mergeSort_perm _ _⟩
  intro hnone
  rw [hmain, hnone]
  simp [naturalSort]

/-- Witness for C10: an unknown city on a concrete valid session yields
the empty street list. -/
theorem getStreets_spec_witness :
    svcW.session = some sessionW ∧ sessionValid svcW 0 = true ∧
    sessionW.templateData.streetsByCity.lookup "nowhere" = none ∧
    (getStreetsSeq svcW 0 "nowhere" (fun _ _ => true)
      (.err (.sessionErr "unused"))).1 = .ok [] := by
  refine ⟨rfl, rfl, rfl, ?_⟩
  exact (getStreets_spec svcW 0 "nowhere" (fun _ _ => true) (.err (.sessionErr "unused"))
    sessionW rfl rfl).2.1 rfl

theorem step_inv {s s' : FacadeState} {e : FacadeEv} (hinv : SingleFlightInv s)
    (hstep : step s e = some s') : SingleFlightInv s' := by
  obtain ⟨hUC, hCC, hCU, hDS⟩ := hinv
  cases e with
  | invoke i =>
    unfold step at hstep
    dsimp only at hstep
    cases hci : s.callers i with
    | awaitingRefresh pid c =>
      rw [hci] at hstep
      simp at hstep
    | done p o =>
      rw [hci] at hstep
      simp at hstep
    | idle =>
      rw [hci] at hstep
      dsimp only at hstep
      by_cases hsv : s.sessionValid = true
      · rw [if_pos hsv] at hstep
        injection hstep with h
        subst h
        refine ⟨hUC, ?_, ?_, ?_⟩
        · intro j pid hj
          dsimp only at hj
          by_cases hji : j = i
          · rw [if_pos hji] at hj
            exact CallerPhase.noConfusion hj
          · rw [if_neg hji] at hj
            exact hCC j pid hj
        · intro j1 j2 p1 p2 hj1 hj2
          dsimp only at hj1 hj2
          by_cases h1 : j1 = i
          · rw [if_pos h1] at hj1
            exact CallerPhase.noConfusion hj1
          · rw [if_neg h1] at hj1
            by_cases h2 : j2 = i
            · rw [if_pos h2] at hj2
              exact CallerPhase.noConfusion hj2
            · rw [if_neg h2] at hj2
              exact hCU j1 j2 p1 p2 hj1 hj2
        · intro j pid o hj
          dsimp only at hj
          by_cases hji : j = i
          · rw [if_pos hji] at hj
            injection hj with hv ho
            exact Option.noConfusion hv
          · rw [if_neg hji] at hj
            exact hDS j pid o hj
      · rw [if_neg hsv] at hstep
        cases hrp : s.refreshPromise with
        | some pid =>
          rw [hrp] at hstep
          dsimp only at hstep
          injection hstep with h
          subst h
          refine ⟨fun p hp => hrp.symm.trans (hUC p hp), ?_, ?_, ?_⟩
          · intro j p hj
            dsimp only at hj
            by_cases hji : j = i
            · rw [if_pos hji] at hj
              injection hj with hp hc
              exact Bool.noConfusion hc
            · rw [if_neg hji] at hj
              exact hrp.symm.trans (hCC j p hj)
          · intro j1 j2 p1 p2 hj1 hj2
            dsimp only at hj1 hj2
            by_cases h1 : j1 = i
            · rw [if_pos h1] at hj1
              injection hj1 with hp hc
              exact Bool.noConfusion hc
            · rw [if_neg h1] at hj1
              by_cases h2 : j2 = i
              · rw [if_pos h2] at hj2
                injection hj2 with hp hc
                exact Bool.noConfusion hc
              · rw [if_neg h2] at hj2
                exact hCU j1 j2 p1 p2 hj1 hj2
          · intro j p o hj
            dsimp only at hj
            by_cases hji : j = i
            · rw [if_pos hji] at hj
              exact CallerPhase.noConfusion hj
            · rw [if_neg hji] at hj
              exact hDS j p o hj
        | none =>
          rw [hrp] at hstep
          dsimp only at hstep
          injection hstep with h
          subst h
          refine ⟨?_, ?_, ?_, ?_⟩
          · intro p hp
            dsimp only at hp ⊢
            by_cases hlt : p < s.promises.length
            · rw [List.get?_append hlt] at hp
              rw [hUC p hp] at hrp
              exact Option.noConfusion hrp
            · by_cases hpe : p = s.promises.length
              · rw [hpe]
              · have : s.promises.length ≤ p := by omega
                rw [List.get?_append_right this] at hp
                have hne : p - s.promises.length ≠ 0 := by omega
                rcases hd : p - s.promises.length with _ | d
                · exact absurd hd hne
                · rw [hd] at hp
                  simp at hp
          · intro j p hj
            dsimp only at hj ⊢
            by_cases hji : j = i
            · rw [if_pos hji] at hj
              injection hj with hp hc
              rw [hp]
            · rw [if_neg hji] at hj
              rw [hCC j p hj] at hrp
              exact Option.noConfusion hrp
          · intro j1 j2 p1 p2 hj1 hj2
            dsimp only at hj1 hj2
            by_cases h1 : j1 = i
            · by_cases h2 : j2 = i
              · rw [h1, h2]
              · rw [if_neg h2] at hj2
                rw [hCC j2 p2 hj2] at hrp
                exact Option.noConfusion hrp
            · rw [if_neg h1] at hj1
              rw [hCC j1 p1 hj1] at hrp
              exact Option.noConfusion hrp
          · intro j p o hj
            dsimp only at hj ⊢
            by_cases hji : j = i
            · rw [if_pos hji] at hj
              exact CallerPhase.noConfusion hj
            · rw [if_neg hji] at hj
              have hds := hDS j p o hj
              have hlt : p < s.promises.length := by
                by_contra hge
                rw [List.get?_eq_none.mpr (by omega)] at hds
                exact Option.noConfusion hds
              rw [List.get?_append hlt]
              exact hds
  | settle pid o =>
    unfold step at hstep
    dsimp only at hstep
    cases hget : s.promises.get? pid with
    | none =>
      rw [hget] at hstep
      simp at hstep
    | some x =>
      cases x with
      | some o1 =>
        rw [hget] at hstep
        simp at hstep
      | none =>
        rw [hget] at hstep
        dsimp only at hstep
        injection hstep with h
        subst h
        refine ⟨?_, hCC, hCU, ?_⟩
        · intro p hp
          dsimp only at hp ⊢
          by_cases hpe : p = pid
          · subst hpe
            rw [List.get?_set_eq] at hp
            rw [hget] at hp
            simp at hp
          · rw [List.get?_set_ne _ _ (Ne.symm hpe)] at hp
            exact hUC p hp
        · intro j p o1 hj
          dsimp only at hj ⊢
          have hds := hDS j p o1 hj
          by_cases hpe : p = pid
          · subst hpe
            rw [hget] at hds
            simp at hds
          · rw [List.get?_set_ne _ _ (Ne.symm hpe)]
            exact hds
  | resume i =>
    unfold step at hstep
    dsimp only at hstep
    cases hci : s.callers i with
    | idle =>
      rw [hci] at hstep
      simp at hstep
    | done p o =>
      rw [hci] at hstep
      simp at hstep
    | awaitingRefresh pid isCr =>
      rw [hci] at hstep
      dsimp only at hstep
      cases hget : s.promises.get? pid with
      | none =>
        rw [hget] at hstep
        simp at hstep
      | some x =>
        cases x with
        | none =>
          rw [hget] at hstep
          simp at hstep
        | some o =>
          rw [hget] at hstep
          dsimp only at hstep
          injection hstep with h
          subst h
          refine ⟨?_, ?_, ?_, ?_⟩
          · intro p hp
            dsimp only at hp ⊢
            cases isCr with
            | true =>
              have hcur := hCC i pid hci
              have hcur2 := hUC p hp
              rw [hcur] at hcur2
              injection hcur2 with hpe
              subst hpe
              rw [hget] at hp
              simp at hp
            | false =>
              exact hUC p hp
          · intro j p hj
            dsimp only at hj ⊢
            by_cases hji : j = i
            · rw [if_pos hji] at hj
              exact CallerPhase.noConfusion hj
            · rw [if_neg hji] at hj
              cases isCr with
              | true => exact absurd (hCU j i p pid hj hci) hji
              | false => exact hCC j p hj
          · intro j1 j2 p1 p2 hj1 hj2
            dsimp only at hj1 hj2
            by_cases h1 : j1 = i
            · rw [if_pos h1] at hj1
              exact CallerPhase.noConfusion hj1
            · rw [if_neg h1] at hj1
              by_cases h2 : j2 = i
              · rw [if_pos h2] at hj2
                exact CallerPhase.noConfusion hj2
              · rw [if_neg h2] at hj2
                exact hCU j1 j2 p1 p2 hj1 hj2
          · intro j p o1 hj
            dsimp only at hj ⊢
            by_cases hji : j = i
            · rw [if_pos hji] at hj
              injection hj with hv ho
              injection hv with hp
              subst hp
              subst ho
              exact hget
            · rw [if_neg hji] at hj
              exact hDS j p o1 hj

theorem steps_inv : ∀ (evs : List FacadeEv) (s s' : FacadeState), SingleFlightInv s →
    steps s evs = some s' → SingleFlightInv s'
  | [], s, s', hinv, hsteps => by
    simp only [steps, Option.some.injEq] at hsteps
    subst hsteps
    exact hinv
  | e :: rest, s, s', hinv, hsteps => by
    unfold steps at hsteps
    cases hstep : step s e with
    | none =>
      rw [hstep] at hsteps
      simp at hsteps
    | some s1 =>
      rw [hstep] at hsteps
      dsimp only at hsteps
      exact steps_inv rest s1 s' (step_inv hinv hstep) hsteps

theorem initState_inv : SingleFlightInv initState := by
  refine ⟨?_, ?_, ?_, ?_⟩
  · intro pid hp
    simp [initState] at hp
  · intro i pid h
    simp [initState] at h
  · intro i j pi pj hi _
    simp [initState] at hi
  · intro i pid o h
    simp [initState] at h

theorem reachable_inv {s : FacadeState} (h : Reachable s) : SingleFlightInv s := by
  obtain ⟨evs, hevs⟩ := h
  exact steps_inv evs initState s initState_inv hevs

theorem invoke_q {s s' : FacadeState} {i : Nat} (hq : InvokeQ s)
    (hstep : step s (.invoke i) = some s') : InvokeQ s' := by
  obtain ⟨hsv, hcase⟩ := hq
  unfold step at hstep
  dsimp only at hstep
  cases hci : s.callers i with
  | awaitingRefresh pid c =>
    rw [hci] at hstep
    simp at hstep
  | done p o =>
    rw [hci] at hstep
    simp at hstep
  | idle =>
    rw [hci] at hstep
    dsimp only at hstep
    rw [if_neg (by simp [hsv])] at hstep
    cases hrp : s.refreshPromise with
    | some pid =>
      rw [hrp] at hstep
      dsimp only at hstep
      injection hstep with h
      subst h
      rcases hcase with ⟨h0, _⟩ | ⟨_, hf1⟩
      · rw [hrp] at h0
        exact Option.noConfusion h0
      · exact ⟨hsv, Or.inr ⟨rfl, hf1⟩⟩
    | none =>
      rw [hrp] at hstep
      dsimp only at hstep
      injection hstep with h
      subst h
      refine ⟨hsv, Or.inr ⟨rfl, ?_⟩⟩
      rcases hcase with ⟨_, hf0⟩ | ⟨hsome, _⟩
      · dsimp only
        rw [hf0]
      · rw [hrp] at hsome
        simp at hsome

theorem steps_q : ∀ (evs : List FacadeEv) (s s' : FacadeState), InvokeQ s →
    (∀ e ∈ evs, ∃ i, e = FacadeEv.invoke i) → steps s evs = some s' → InvokeQ s'
  | [], s, s', hq, _, hsteps => by
    simp only [steps, Option.some.injEq] at hsteps
    subst hsteps
    exact hq
  | e :: rest, s, s', hq, hinvokes, hsteps => by
    obtain ⟨i, rfl⟩ := hinvokes e (List.mem_cons_self _ _)
    unfold steps at hsteps
    cases hstep : step s (.invoke i) with
    | none =>
      rw [hstep] at hsteps
      simp at hsteps
    | some s1 =>
      rw [hstep] at hsteps
      dsimp only at hsteps
      exact steps_q rest s1 s' (invoke_q hq hstep)
        (fun e2 he2 => hinvokes e2 (List.mem_cons_of_mem _ he2)) hsteps

/-- C1: single-flight refresh.  (1) Any burst of concurrent invocations
starting from the initial no-session state performs at most one
directory-page fetch.  (2) While a refresh promise is stored, a new
invocation (session still invalid) starts no fetch and creates no
promise: the caller just starts awaiting that same stored promise.
(3) Any two callers that completed through the same promise observed the
same success/failure outcome.  (4) In every reachable state at most one
refresh is in flight.  (5) When the creator's continuation runs after its
promise settles (with either outcome), the stored promise handle is
cleared, so the next stale check starts a fresh attempt. -/
theorem ensureSession_singleFlight :
    (∀ evs s', (∀ e ∈ evs, ∃ i, e = FacadeEv.invoke i) →
      steps initState evs = some s' → s'.fetchCount ≤ 1) ∧
    (∀ s i pid, s.refreshPromise = some pid → s.callers i = .idle →
      s.sessionValid = false →
      ∃ s', step s (.invoke i) = some s' ∧ s'.fetchCount = s.fetchCount ∧
        s'.promises = s.promises ∧ s'.refreshPromise = s.refreshPromise ∧
        s'.callers i = .awaitingRefresh pid false) ∧
    (∀ s i j pid oi oj, Reachable s →
      s.callers i = .done (some pid) oi → s.callers j = .done (some pid) oj → oi = oj) ∧
    (∀ s p1 p2, Reachable s →
      s.promises.get? p1 = some none → s.promises.get? p2 = some none → p1 = p2) ∧
    (∀ s s' i pid, s.callers i = .awaitingRefresh pid true →
      step s (.resume i) = some s' → s'.refreshPromise = none) := by
  refine ⟨?_, ?_, ?_, ?_, ?_⟩
  · intro evs s' hinvokes hsteps
    have hq := steps_q evs initState s' ⟨rfl, Or.inl ⟨rfl, rfl⟩⟩ hinvokes hsteps
    rcases hq.2 with ⟨_, hf⟩ | ⟨_, hf⟩ <;> omega
  · intro s i pid hrp hci hsv
    have hstep : step s (.invoke i) = some { s with callers := fun j =>
        if j = i then (CallerPhase.awaitingRefresh pid false) else s.callers j } := by
      unfold step
      dsimp only
      rw [hci]
      dsimp only
      rw [if_neg (by simp [hsv]), hrp]
    refine ⟨_, hstep, rfl, rfl, rfl, ?_⟩
    dsimp only
    rw [if_pos rfl]
  · intro s i j pid oi oj hr hi hj
    have hinv := reachable_inv hr
    have h1 := hinv.doneSettled i pid oi hi
    have h2 := hinv.doneSettled j pid oj hj
    rw [h1] at h2
    injection h2 with h3
    injection h3
  · intro s p1 p2 hr h1 h2
    have hinv := reachable_inv hr
    have e1 := hinv.unsettledCurrent p1 h1
    have e2 := hinv.unsettledCurrent p2 h2
    rw [e1] at e2
    exact Option.some.inj e2
  · intro s s' i pid hci hstep
    unfold step at hstep
    dsimp only at hstep
    rw [hci] at hstep
    dsimp only at hstep
    cases hget : s.promises.get? pid with
    | none =>
      rw [hget] at hstep
      simp at hstep
    | some x =>
      cases x with
      | none =>
        rw [hget] at hstep
        simp at hstep
      | some o =>
        rw [hget] at hstep
        dsimp only at hstep
        injection hstep with h
        subst h
        rfl

/-- Witness for C1: a two-caller burst from the initial state makes
exactly one fetch. -/
theorem ensureSession_singleFlight_witness :
    (∀ e ∈ evsW, ∃ i, e = FacadeEv.invoke i) ∧
    steps initState evsW = some ((steps initState evsW).getD initState) ∧
    ((steps initState evsW).getD initState).fetchCount ≤ 1 := by
  have hinvokes : ∀ e ∈ evsW, ∃ i, e = FacadeEv.invoke i := by
    intro e he
    simp only [evsW, List.mem_cons, List.mem_singleton] at he
    rcases he with rfl | rfl | h
    · exact ⟨0, rfl⟩
    · exact ⟨1, rfl⟩
    · exact absurd h (List.not_mem_nil e)
  refine ⟨hinvokes, rfl, ?_⟩
  exact ensureSession_singleFlight.1 evsW _ hinvokes rfl

end BetterDtek
